import Mathlib

/-!
A shallow embedding of pypref (src/Preferences.py) and proofs about it.

The embedding models:
  * the value space of preferences: strings, integers, booleans and nested
    list literals (`PVal`), with string/number keys (`PKey`);
  * Python dictionaries as insertion-ordered association lists together with
    an `isOrd` flag recording whether the object is a `collections.OrderedDict`
    (`PDict`);
  * CPython `repr` of strings (quote selection and escaping) and `str` of
    values, as used by `Preferences.__get_normalized_string` / `__get_lines`;
  * the renderer `Preferences.__get_lines` producing the persisted document;
  * the loader: executing a generated document (modelled by a line-by-line
    interpreter of the restricted assignment language that `__get_lines`
    emits) followed by the checks of `Preferences.__load_or_create`;
  * the mutators `set_preferences`, `set_dynamic`, `update_preferences`,
    `set_default` with the two-phase (temporary then real) write protocol,
    file-system success/failure being abstracted by two flags (`FS`), and the
    performed writes recorded as events;
  * the reader `get` with module import and expression evaluation abstracted
    by an `EvalCtx` (an expression evaluator cannot be embedded further
    without embedding all of Python; the context records which imports
    succeed and what evaluating an expression string with a set of modules
    returns);
  * Python `%`-formatting of messages (`pyFormat`), needed because two raise
    statements in the source apply `%` to a mismatched argument tuple.
-/

/-- Keys of the preferences mapping: the specification restricts attention to
string and number keys. -/
inductive PKey where
  | kstr (s : String)
  | kint (n : Int)
deriving DecidableEq, Repr

/-- Literal-representable preference values: strings, integers, booleans and
(nested) list literals.  (CPython floats are excluded from the embedding.) -/
inductive PVal where
  | pstr (s : String)
  | pint (n : Int)
  | pbool (b : Bool)
  | plist (l : List PVal)

mutual
def PVal.decEq : (a b : PVal) → Decidable (a = b)
  | .pstr a, .pstr b => decidable_of_iff (a = b) (by simp)
  | .pstr _, .pint _ => isFalse nofun
  | .pstr _, .pbool _ => isFalse nofun
  | .pstr _, .plist _ => isFalse nofun
  | .pint _, .pstr _ => isFalse nofun
  | .pint a, .pint b => decidable_of_iff (a = b) (by simp)
  | .pint _, .pbool _ => isFalse nofun
  | .pint _, .plist _ => isFalse nofun
  | .pbool _, .pstr _ => isFalse nofun
  | .pbool _, .pint _ => isFalse nofun
  | .pbool a, .pbool b => decidable_of_iff (a = b) (by simp)
  | .pbool _, .plist _ => isFalse nofun
  | .plist _, .pstr _ => isFalse nofun
  | .plist _, .pint _ => isFalse nofun
  | .plist _, .pbool _ => isFalse nofun
  | .plist a, .plist b =>
    match PVal.decEqL a b with
    | isTrue h => isTrue (by rw [h])
    | isFalse h => isFalse (by intro hh; cases hh; exact h rfl)
def PVal.decEqL : (a b : List PVal) → Decidable (a = b)
  | [], [] => isTrue rfl
  | [], _ :: _ => isFalse nofun
  | _ :: _, [] => isFalse nofun
  | a :: as, b :: bs =>
    match PVal.decEq a b, PVal.decEqL as bs with
    | isTrue h1, isTrue h2 => isTrue (by rw [h1, h2])
    | isFalse h1, _ => isFalse (by intro hh; injection hh with hh1 hh2; exact h1 hh1)
    | isTrue _, isFalse h2 => isFalse (by intro hh; injection hh with hh1 hh2; exact h2 hh2)
end

instance : DecidableEq PVal := PVal.decEq

/-- A Python dictionary with value type `α`: an insertion-ordered association
list plus a flag recording whether the container is an `OrderedDict`. -/
structure PDict (α : Type) where
  entries : List (PKey × α)
  isOrd : Bool
deriving DecidableEq

/-- `d.get(k)` / `d[k]` lookup on an association list. -/
def dlookup {α : Type} : List (PKey × α) → PKey → Option α
  | [], _ => none
  | (k, v) :: t, key => if k = key then some v else dlookup t key

/-- `d[k] = v` on an association list: replace in place if the key exists
(keeping its position, as CPython dicts do), append otherwise. -/
def dupsert {α : Type} : List (PKey × α) → PKey → α → List (PKey × α)
  | [], key, v => [(key, v)]
  | (k, w) :: t, key, v => if k = key then (k, v) :: t else (k, w) :: dupsert t key v

/-! ### Decimal printing of integers (CPython `str(int)`) -/

def digitChar (n : Nat) : Char := "0123456789".data.getD n '0'

def digitVal (c : Char) : Nat := c.toNat - 48

/-- Digits of `n`, most significant first; `fuel`-structured so that the
kernel can evaluate it (`fuel ≥ number of digits` suffices). -/
def natDigitsF : Nat → Nat → List Char
  | 0, _ => []
  | fuel + 1, n =>
    if n < 10 then [digitChar n] else natDigitsF fuel (n / 10) ++ [digitChar (n % 10)]

def natDigits (n : Nat) : List Char := natDigitsF (n + 1) n

/-- CPython `str` of an integer. -/
def intStr (n : Int) : String :=
  if n < 0 then String.mk ('-' :: natDigits n.natAbs) else String.mk (natDigits n.natAbs)

def digitsToNat (l : List Char) : Nat := l.foldl (fun a c => 10 * a + digitVal c) 0

/-! ### CPython `repr` of strings

`Preferences.__get_normalized_string` is `str(repr(s))`.  CPython `repr` of a
string picks the quote character (single quotes unless the string contains a
single quote and no double quote) and escapes backslashes, the chosen quote,
`\n`, `\r`, `\t` and non-printable characters.  Non-printability of
codepoints above `0x7f` is decided by Unicode category tables that are
outside this model: here exactly the ASCII non-printables (codepoints below
32, and 127) are escaped and all other codepoints are emitted verbatim.  A
verbatim non-ASCII character is parsed back to itself by `exec`, so this
abstraction does not affect any round-trip behaviour. -/

def hexDigitChar (n : Nat) : Char := "0123456789abcdef".data.getD n '0'

/-- The escape sequence `repr` emits for one character inside quotes `q`. -/
def escChar (q c : Char) : List Char :=
  if c = '\\' then ['\\', '\\']
  else if c = q then ['\\', q]
  else if c = '\n' then ['\\', 'n']
  else if c = '\r' then ['\\', 'r']
  else if c = '\t' then ['\\', 't']
  else if c.toNat < 32 ∨ c.toNat = 127 then
    ['\\', 'x', hexDigitChar (c.toNat / 16), hexDigitChar (c.toNat % 16)]
  else [c]

def escBody (q : Char) (s : List Char) : List Char := (s.map (escChar q)).flatten

/-- CPython `repr` of a string: double quotes are used exactly when the
string contains a single quote and no double quote. -/
def pyRepr (s : String) : String :=
  let q : Char := if s.data.contains '\'' && !(s.data.contains '"') then '"' else '\''
  String.mk (q :: escBody q s.data ++ [q])

/-! ### Rendering values and keys (`__get_lines` right-hand sides)

A string value is rendered with `repr`; any other value is rendered with
`str`, which for integers, booleans and lists agrees with `repr` (elements of
a list are rendered with `repr`). -/

mutual
def renderVal : PVal → String
  | .pstr s => pyRepr s
  | .pint n => intStr n
  | .pbool b => if b then "True" else "False"
  | .plist l => "[" ++ renderElems l ++ "]"
def renderElems : List PVal → String
  | [] => ""
  | [x] => renderVal x
  | x :: y :: t => renderVal x ++ ", " ++ renderElems (y :: t)
end

/-- A key as emitted inside `preferences[...]`: `repr` for strings (the
source applies `__get_normalized_string` to string keys), `str` otherwise. -/
def renderKey : PKey → String
  | .kstr s => pyRepr s
  | .kint n => intStr n

/-- `str(k)` of a key, used by `__get_lines` only to compute the padding
width `maxLen`. -/
def keyStr : PKey → String
  | .kstr s => s
  | .kint n => intStr n

def renderTupleRest : List String → String
  | [] => ")"
  | [x] => pyRepr x ++ ")"
  | x :: y :: t => pyRepr x ++ ", " ++ renderTupleRest (y :: t)

/-- CPython `str` of a tuple of strings, used to render a dynamic entry's
module tuple: `()`, `('a',)`, `('a', 'b')`, ... -/
def renderTuple : List String → String
  | [] => "()"
  | [x] => "(" ++ pyRepr x ++ ",)"
  | x :: y :: t => "(" ++ pyRepr x ++ ", " ++ renderTupleRest (y :: t)

/-! ### The renderer `Preferences.__get_lines` -/

def joinAll : List String → String
  | [] => ""
  | s :: t => s ++ joinAll t

/-- `str.ljust(n)` -/
def padTo (s : String) (n : Nat) : String :=
  s ++ String.mk (List.replicate (n - s.length) ' ')

/-- `maxLen = [...]; if len(maxLen): maxLen = max(maxLen) else: maxLen = 0` -/
def pyMaxOrZero : List Nat → Nat
  | [] => 0
  | l => l.foldl Nat.max 0

def hashBanner : String :=
  "##########################################################################################"

def prefBanner : String :=
  "###################################### PREFERENCES #######################################"

def dynBanner : String :=
  "############################## DYNAMIC PREFERENCES MODULES ###############################"

/-- One emitted static assignment line (with its trailing newline). -/
def prefLine (maxLen : Nat) (k : PKey) (v : PVal) : String :=
  padTo ("preferences[" ++ renderKey k ++ "]") maxLen ++ " = " ++ renderVal v ++ "\n"

/-- One emitted dynamic assignment line (with its trailing newline). -/
def dynLine (maxLen : Nat) (k : PKey) (v : List String) : String :=
  padTo ("dynamic[" ++ renderKey k ++ "]") maxLen ++ " = " ++ renderTuple v ++ "\n"

/-- `Preferences.__get_lines`.  Note the faithful reproduction of source line
316: the `OrderedDict` marker of the *dynamic* block is decided by
`isinstance(preferences, OrderedDict)`, i.e. by the static mapping's type. -/
def get_lines (preferences : PDict PVal) (dynamic : PDict (List String)) : String :=
  "# This file is an automatically generated pypref preferences file. \n\n"
  ++ "__pypref_version__ = '4.0.0' \n\n"
  ++ hashBanner ++ "\n"
  ++ prefBanner ++ "\n"
  ++ (if preferences.isOrd then
        "from collections import OrderedDict" ++ "\n" ++ "preferences = OrderedDict()" ++ "\n"
      else "preferences = {}" ++ "\n")
  ++ (let maxLen := pyMaxOrZero (preferences.entries.map fun kv => (keyStr kv.1).length)
                      + "preferences[\"\"]".length
      joinAll (preferences.entries.map fun kv => prefLine maxLen kv.1 kv.2))
  ++ "\n"
  ++ hashBanner ++ "\n"
  ++ dynBanner ++ "\n"
  ++ (if preferences.isOrd then
        "from collections import OrderedDict" ++ "\n" ++ "dynamic = OrderedDict()" ++ "\n"
      else "dynamic = {}" ++ "\n")
  ++ (let maxLen := pyMaxOrZero (dynamic.entries.map fun kv => (keyStr kv.1).length)
                      + "dynamic[\"\"]".length
      joinAll (dynamic.entries.map fun kv => dynLine maxLen kv.1 kv.2))

/-! ### Errors -/

/-- The error taxonomy of the specification.  The source raises plain
`Exception`s everywhere; the constructor records which kind of failure a
raise site reports, and the carried string is the message.  `typeError` is a
`TypeError` escaping from a malformed `%`-format expression inside a raise
statement; `appError` is a generic application exception. -/
inductive PErr where
  | validation (msg : String)
  | persistTemp (msg : String)
  | persistReal (msg : String)
  | format (msg : String)
  | typeError (msg : String)
  | evalError (msg : String)
  | appError (msg : String)
deriving DecidableEq, Repr

instance {ε α : Type} [DecidableEq ε] [DecidableEq α] : DecidableEq (Except ε α) := fun
  | .ok a, .ok b => decidable_of_iff (a = b) (by simp)
  | .ok _, .error _ => isFalse nofun
  | .error _, .ok _ => isFalse nofun
  | .error a, .error b => decidable_of_iff (a = b) (by simp)

/-! ### Parsing the generated document

The loader (`__load_or_create`) "parses" a persisted document by executing
it with the Python interpreter and then reading the module attributes
`__pypref_version__`, `preferences` and `dynamic`.  Documents produced by
`__get_lines` only ever contain comment lines, blank lines, the version
assignment, `from collections import OrderedDict`, the two
collection-constructing assignments, and one literal item-assignment per
entry.  Executing such a document is modelled by the line interpreter below;
its literal parsers are exact inverses of the renderer above. -/

def hexVal (c : Char) : Option Nat :=
  if '0' ≤ c ∧ c ≤ '9' then some (c.toNat - 48)
  else if 'a' ≤ c ∧ c ≤ 'f' then some (c.toNat - 87)
  else none

/-- Parse the body of a quoted string literal delimited by `q`, undoing the
escaping of `escChar`; returns the decoded characters and the input past the
closing quote. -/
def parseStrBody (q : Char) : List Char → Option (List Char × List Char)
  | [] => none
  | c :: rest =>
    if c = q then some ([], rest)
    else if c = '\\' then
      match rest with
      | [] => none
      | e :: r =>
        if e = '\\' then (parseStrBody q r).map fun p => ('\\' :: p.1, p.2)
        else if e = '\'' then (parseStrBody q r).map fun p => ('\'' :: p.1, p.2)
        else if e = '"' then (parseStrBody q r).map fun p => ('"' :: p.1, p.2)
        else if e = 'n' then (parseStrBody q r).map fun p => ('\n' :: p.1, p.2)
        else if e = 'r' then (parseStrBody q r).map fun p => ('\r' :: p.1, p.2)
        else if e = 't' then (parseStrBody q r).map fun p => ('\t' :: p.1, p.2)
        else if e = 'x' then
          match r with
          | h1 :: h2 :: r' =>
            match hexVal h1, hexVal h2 with
            | some a, some b =>
              (parseStrBody q r').map fun p => (Char.ofNat (16 * a + b) :: p.1, p.2)
            | _, _ => none
          | _ => none
        else none
    else (parseStrBody q rest).map fun p => (c :: p.1, p.2)

/-- Parse a whole quoted string literal (either quote character). -/
def parseStrLit : List Char → Option (String × List Char)
  | [] => none
  | c :: r =>
    if c = '\'' then (parseStrBody '\'' r).map fun p => (String.mk p.1, p.2)
    else if c = '"' then (parseStrBody '"' r).map fun p => (String.mk p.1, p.2)
    else none

/-- Split a maximal run of decimal digits off the front. -/
def takeDigits : List Char → List Char × List Char
  | [] => ([], [])
  | c :: r => if c.isDigit then ((takeDigits r).1.cons c, (takeDigits r).2) else ([], c :: r)

/-- Parse a key literal: a quoted string or a (possibly negative) integer. -/
def parseKey : List Char → Option (PKey × List Char)
  | [] => none
  | c :: r =>
    if c = '\'' then (parseStrBody '\'' r).map fun p => (.kstr (String.mk p.1), p.2)
    else if c = '"' then (parseStrBody '"' r).map fun p => (.kstr (String.mk p.1), p.2)
    else if c = '-' then
      let td := takeDigits r
      if td.1 = [] then none else some (.kint (-(digitsToNat td.1 : Int)), td.2)
    else if c.isDigit then
      let td := takeDigits (c :: r)
      some (.kint (digitsToNat td.1 : Int), td.2)
    else none

mutual
/-- Parse a value literal (string, boolean, integer or list); `fuel` bounds
the bracket-nesting recursion, `fuel ≥ length of the input` suffices. -/
def parseVal : Nat → List Char → Option (PVal × List Char)
  | 0, _ => none
  | f + 1, cs =>
    match cs with
    | [] => none
    | c :: r =>
      if c = '\'' then (parseStrBody '\'' r).map fun p => (.pstr (String.mk p.1), p.2)
      else if c = '"' then (parseStrBody '"' r).map fun p => (.pstr (String.mk p.1), p.2)
      else if "True".data.isPrefixOf cs then some (.pbool true, cs.drop 4)
      else if "False".data.isPrefixOf cs then some (.pbool false, cs.drop 5)
      else if c = '[' then
        if r.head? = some ']' then some (.plist [], r.tail)
        else (parseElems f r).map fun p => (.plist p.1, p.2)
      else if c = '-' then
        let td := takeDigits r
        if td.1 = [] then none else some (.pint (-(digitsToNat td.1 : Int)), td.2)
      else if c.isDigit then
        let td := takeDigits (c :: r)
        some (.pint (digitsToNat td.1 : Int), td.2)
      else none
/-- Parse the elements of a non-empty list literal up to and including the
closing bracket. -/
def parseElems : Nat → List Char → Option (List PVal × List Char)
  | 0, _ => none
  | f + 1, cs =>
    (parseVal f cs).bind fun p =>
      if p.2.head? = some ']' then some ([p.1], p.2.tail)
      else if p.2.head? = some ',' ∧ p.2.tail.head? = some ' ' then
        (parseElems f p.2.tail.tail).map fun q => (p.1 :: q.1, q.2)
      else none
end

/-- Parse the items of a non-empty tuple literal of strings up to and
including the closing parenthesis (accepting the trailing comma CPython
emits for singletons). -/
def parseTupleItems : Nat → List Char → Option (List String × List Char)
  | 0, _ => none
  | f + 1, cs =>
    (parseStrLit cs).bind fun p =>
      if p.2.head? = some ')' then some ([p.1], p.2.tail)
      else if p.2.head? = some ',' ∧ p.2.tail.head? = some ')' then
        some ([p.1], p.2.tail.tail)
      else if p.2.head? = some ',' ∧ p.2.tail.head? = some ' ' then
        (parseTupleItems f p.2.tail.tail).map fun q => (p.1 :: q.1, q.2)
      else none

/-- Parse a tuple-of-strings literal. -/
def parseTuple : List Char → Option (List String × List Char)
  | [] => none
  | c :: r =>
    if c = '(' then
      if r.head? = some ')' then some ([], r.tail) else parseTupleItems r.length r
    else none

/-- Parse what follows `preferences[` or `dynamic[` in an item-assignment
line: the key literal, the closing bracket, the `ljust` padding, ` = ` and
the value literal, which must end the line. -/
def parseEntryRest {α : Type} (parseV : List Char → Option (α × List Char))
    (cs : List Char) : Option (PKey × α) :=
  (parseKey cs).bind fun p =>
    if p.2.head? = some ']' then
      match (p.2.tail.dropWhile (· = ' ')) with
      | '=' :: ' ' :: r4 =>
        (parseV r4).bind fun q => if q.2 = [] then some (p.1, q.1) else none
      | _ => none
    else none

/-- The module-attribute state accumulated while executing a document. -/
structure LoadSt where
  ver : Option String
  prefs : Option (PDict PVal)
  dyn : Option (PDict (List String))
deriving DecidableEq

/-- Execute one line of a generated document. -/
def procLine (st : LoadSt) (l : List Char) : Except PErr LoadSt :=
  match l with
  | [] => .ok st
  | '#' :: _ => .ok st
  | 'p' :: 'r' :: 'e' :: 'f' :: 'e' :: 'r' :: 'e' :: 'n' :: 'c' :: 'e' :: 's' :: '[' :: rest =>
    match st.prefs with
    | none => .error (.format "name 'preferences' is not defined")
    | some P =>
      match parseEntryRest (fun cs => parseVal cs.length cs) rest with
      | some (k, v) => .ok { st with prefs := some ⟨dupsert P.entries k v, P.isOrd⟩ }
      | none => .error (.format "invalid syntax")
  | 'd' :: 'y' :: 'n' :: 'a' :: 'm' :: 'i' :: 'c' :: '[' :: rest =>
    match st.dyn with
    | none => .error (.format "name 'dynamic' is not defined")
    | some D =>
      match parseEntryRest parseTuple rest with
      | some (k, v) => .ok { st with dyn := some ⟨dupsert D.entries k v, D.isOrd⟩ }
      | none => .error (.format "invalid syntax")
  | _ =>
    if l = "from collections import OrderedDict".data then .ok st
    else if l = "preferences = {}".data then .ok { st with prefs := some ⟨[], false⟩ }
    else if l = "preferences = OrderedDict()".data then .ok { st with prefs := some ⟨[], true⟩ }
    else if l = "dynamic = {}".data then .ok { st with dyn := some ⟨[], false⟩ }
    else if l = "dynamic = OrderedDict()".data then .ok { st with dyn := some ⟨[], true⟩ }
    else if "__pypref_version__ = ".data.isPrefixOf l then
      match parseStrLit (l.drop "__pypref_version__ = ".data.length) with
      | some (s, r) => if r.all (· = ' ') then .ok { st with ver := some s }
                       else .error (.format "invalid syntax")
      | none => .error (.format "invalid syntax")
    else .error (.format "invalid syntax")

/-- Split into lines at `'\n'` (the terminators are consumed; an unterminated
final segment is a line of its own). -/
def linesOf : List Char → List (List Char)
  | [] => []
  | c :: rest =>
    if c = '\n' then [] :: linesOf rest
    else
      match linesOf rest with
      | [] => [[c]]
      | l :: ls => (c :: l) :: ls

/-- Execute all lines of a document. -/
def execDoc : LoadSt → List (List Char) → Except PErr LoadSt
  | st, [] => .ok st
  | st, l :: ls => (procLine st l).bind fun st' => execDoc st' ls

/-! ### The loader checks of `Preferences.__load_or_create` (lines 261-276) -/

/-- How one module attribute presents itself to the loader after the
document has been executed: missing, present but not a `dict` instance, or a
mapping. -/
inductive PyAttr (α : Type) where
  | absent
  | nonMapping
  | mapping (d : α)
deriving DecidableEq

/-- The attributes of the executed document module that the loader reads. -/
structure ExecedModule where
  hasVersion : Bool
  preferences : PyAttr (PDict PVal)
  dynamic : PyAttr (PDict (List String))
deriving DecidableEq

/-- The checks of `__load_or_create` on an executed module:
`module.__pypref_version__` and `module.preferences` are read inside one
`try` whose failure is fatal; `module.dynamic` is read inside a `try` with a
bare `except` that substitutes `{}`; then both collections are asserted to
be `dict` instances. -/
def load_check (m : ExecedModule) : Except PErr (PDict PVal × PDict (List String)) :=
  if !m.hasVersion then .error (.format "Existing file is not a pypref file (version)")
  else
    match m.preferences with
    | .absent => .error (.format "Existing file is not a pypref file (preferences)")
    | .nonMapping => .error (.format "Existing file is not a pypref file")
    | .mapping p =>
      match m.dynamic with
      | .absent => .ok (p, ⟨[], false⟩)
      | .nonMapping => .error (.format "Existing file is not a pypref file")
      | .mapping d => .ok (p, d)

/-- Load a persisted document text the way the loader does: execute it and
extract the two named collections, applying the `__load_or_create` checks.
(A collection produced by executing a generated document is always a
mapping, so the `nonMapping` shape cannot arise on this path.) -/
def loadDoc (doc : String) : Except PErr (PDict PVal × PDict (List String)) :=
  (execDoc ⟨none, none, none⟩ (linesOf doc.data)).bind fun st =>
    load_check
      ⟨st.ver.isSome,
       match st.prefs with | none => .absent | some p => .mapping p,
       match st.dyn with | none => .absent | some d => .mapping d⟩

/-! ### Python `%`-formatting of messages

Two raise sites apply `%` to a format string whose number of `%s`
placeholders does not match the number of supplied arguments, which makes
the raise statement itself fail with a `TypeError`.  `pyFormat` substitutes
`%s` placeholders left to right and reports the `TypeError` message when the
counts do not match. -/

def pyFormatL : List Char → List String → Except String (List Char)
  | [], [] => .ok []
  | [], _ :: _ => .error "not all arguments converted during string formatting"
  | '%' :: 's' :: r, a :: as => (pyFormatL r as).map fun t => a.data ++ t
  | '%' :: 's' :: _, [] => .error "not enough arguments for format string"
  | c :: r, as => (pyFormatL r as).map fun t => c :: t

def pyFormat (fmt : String) (args : List String) : Except String String :=
  (pyFormatL fmt.data args).map String.mk

/-! ### Python `==` on preference values

CPython equality on our value space: numeric cross-type equality identifies
`True`/`False` with `1`/`0`, lists compare elementwise, everything else is
structural; a string never equals a number and a list never equals a
scalar. -/

mutual
def pyEq : PVal → PVal → Bool
  | .pstr a, .pstr b => a == b
  | .pint a, .pint b => a == b
  | .pbool a, .pbool b => a == b
  | .pint a, .pbool b => a == (if b then (1 : Int) else 0)
  | .pbool a, .pint b => (if a then (1 : Int) else 0) == b
  | .plist a, .plist b => pyEqL a b
  | _, _ => false
def pyEqL : List PVal → List PVal → Bool
  | [], [] => true
  | a :: as, b :: bs => pyEq a b && pyEqL as bs
  | _, _ => false
end

/-- A value of the `dynamic` argument of `set_dynamic`/`update_preferences`
before normalization: `None`, a list of module names, or a tuple of module
names.  (The source also accepts sets; set iteration order is outside the
model.)  Stored dynamic values are always tuples. -/
inductive DynV where
  | vnone
  | vlist (l : List String)
  | vtuple (l : List String)
deriving DecidableEq, Repr

/-- Python `==` on dynamic values: `None` equals only itself, and a list
never equals a tuple, even elementwise-equal ones. -/
def dynVEq : DynV → DynV → Bool := fun a b => a == b

/-! ### The store state, file-system abstraction and operations -/

/-- In-memory state of a `Preferences` object plus the contents of the real
backing file; `file = none` means the file's content is unknown (a failed
overwrite may have corrupted it). -/
structure St where
  prefs : PDict PVal
  dyn : PDict (List String)
  file : Option String
deriving DecidableEq

/-- A completed write performed by `__dump_file`: to the disposable
temporary location or to the real backing file. -/
inductive WEvent where
  | tempWrite (content : String)
  | realWrite (content : String)
deriving DecidableEq, Repr

def WEvent.isReal : WEvent → Bool
  | .tempWrite _ => false
  | .realWrite _ => true

/-- Whether writing the temporary location / the real backing file
succeeds. -/
structure FS where
  tempOk : Bool
  realOk : Bool
deriving DecidableEq, Repr

/-- Result of an operation: the raised error if any, the state after the
call, and the writes that completed during it. -/
structure Out where
  err : Option PErr
  st : St
  events : List WEvent
deriving DecidableEq

/-- The normalization loop of `set_dynamic` (lines 568-582): keys missing
from the static mapping are discarded with a warning; `None` becomes the
empty tuple; list/tuple values are checked duplicate-free and stored as
tuples. -/
def normDyn (prefs : List (PKey × PVal)) (acc : List (PKey × List String)) :
    List (PKey × DynV) → Except PErr (List (PKey × List String))
  | [] => .ok acc
  | (k, v) :: rest =>
    if (dlookup prefs k).isNone then normDyn prefs acc rest
    else
      match v with
      | .vnone => normDyn prefs (dupsert acc k []) rest
      | .vlist l =>
        if l.Nodup then normDyn prefs (dupsert acc k l) rest
        else .error (.validation "dynamic dictionary values are redundant")
      | .vtuple l =>
        if l.Nodup then normDyn prefs (dupsert acc k l) rest
        else .error (.validation "dynamic dictionary values are redundant")

/-- `Preferences.set_dynamic` (lines 560-595): normalize, dump to the
temporary location, dump to the real file, and only then swap the in-memory
dynamic mapping.  The rebuilt mapping `D` is a plain `dict`. -/
def Preferences.set_dynamic (fs : FS) (st : St) (dynamic : PDict DynV) : Out :=
  match normDyn st.prefs.entries [] dynamic.entries with
  | .error e => ⟨some e, st, []⟩
  | .ok D =>
    let Dd : PDict (List String) := ⟨D, false⟩
    let content := get_lines st.prefs Dd
    if !fs.tempOk then
      ⟨some (.persistTemp "Unable to dump temporary preferences file. Preferences are unchanged."),
        st, []⟩
    else if !fs.realOk then
      ⟨some (.persistReal "Unable to dump preferences file."), { st with file := none },
        [.tempWrite content]⟩
    else
      ⟨none, { prefs := st.prefs, dyn := Dd, file := some content },
        [.tempWrite content, .realWrite content]⟩

/-- The format string of the re-raise in `set_preferences` (line 556): it
contains no `%s` placeholder yet is applied to the caught exception. -/
def reraiseFmt : String :=
  "Unable to set dynamic from set_preferences method. Preferences file can be corrupt, but in memory stored preferences are still available and accessible using preferences property. Preferences are unchanged."

def errMsg : PErr → String
  | .validation m => m
  | .persistTemp m => m
  | .persistReal m => m
  | .format m => m
  | .typeError m => m
  | .evalError m => m
  | .appError m => m

/-- `Preferences.set_preferences` (lines 523-558).  With `dynamic = None`
the temporary dump runs twice (lines 537 and 539), then the real dump, then
the in-memory swap.  With a `dynamic` argument the static mapping is swapped
first, `set_dynamic` runs, and on its failure the static mapping is rolled
back and the error re-raised — through a `%`-format with no placeholder,
which itself raises a `TypeError`. -/
def Preferences.set_preferences (fs : FS) (st : St) (preferences : PDict PVal)
    (dynamic : Option (PDict DynV)) : Out :=
  match dynamic with
  | none =>
    if !fs.tempOk then
      ⟨some (.persistTemp "unable to write preferences temporary file."), st, []⟩
    else
      let content := get_lines preferences st.dyn
      if !fs.realOk then
        ⟨some (.persistReal "Unable to dump preferences file."), { st with file := none },
          [.tempWrite content, .tempWrite content]⟩
      else
        ⟨none, { prefs := preferences, dyn := st.dyn, file := some content },
          [.tempWrite content, .tempWrite content, .realWrite content]⟩
  | some D =>
    let inner := Preferences.set_dynamic fs { st with prefs := preferences } D
    match inner.err with
    | some e =>
      let e2 : PErr :=
        match pyFormat reraiseFmt [errMsg e] with
        | .ok m => .appError m
        | .error m => .typeError m
      ⟨some e2, { inner.st with prefs := st.prefs }, inner.events⟩
    | none => ⟨none, { inner.st with prefs := preferences }, inner.events⟩

/-- Stored dynamic values re-entering a merge are tuples. -/
def embedDynEntries (d : List (PKey × List String)) : List (PKey × DynV) :=
  d.map fun kv => (kv.1, .vtuple kv.2)

/-- One step of the update merge (`if p not in new or new.get(p, None) != v:
reset = True; new[p] = v`). -/
def mergeStep {α : Type} (eqf : α → α → Bool) :
    Bool × List (PKey × α) → PKey × α → Bool × List (PKey × α) :=
  fun bc kv =>
    match dlookup bc.2 kv.1 with
    | none => (true, dupsert bc.2 kv.1 kv.2)
    | some w => if !eqf w kv.2 then (true, dupsert bc.2 kv.1 kv.2) else bc

def mergeUpd {α : Type} (eqf : α → α → Bool) (cur : List (PKey × α))
    (arg : List (PKey × α)) : Bool × List (PKey × α) :=
  arg.foldl (mergeStep eqf) (false, cur)

/-- `Preferences.update_preferences` (lines 483-521): merge the given
mappings into (deep copies of) the current ones, and call `set_preferences`
— which is always handed the merged dynamic mapping — only if some value
actually changed under Python `==`. -/
def Preferences.update_preferences (fs : FS) (st : St) (preferences : Option (PDict PVal))
    (dynamic : Option (PDict DynV)) : Out :=
  if preferences.isNone && dynamic.isNone then
    ⟨some (.validation "Both preferences and dynamic can't be None"), st, []⟩
  else
    let dynRes : Bool × List (PKey × DynV) :=
      match dynamic with
      | none => (false, embedDynEntries st.dyn.entries)
      | some Dd => mergeUpd dynVEq (embedDynEntries st.dyn.entries) Dd.entries
    let prefRes : Bool × List (PKey × PVal) :=
      match preferences with
      | none => (false, st.prefs.entries)
      | some Pd => mergeUpd pyEq st.prefs.entries Pd.entries
    if dynRes.1 || prefRes.1 then
      Preferences.set_preferences fs st ⟨prefRes.2, st.prefs.isOrd⟩ (some ⟨dynRes.2, st.dyn.isOrd⟩)
    else ⟨none, st, []⟩

/-- One step of the `set_default` merge: only absent keys are added. -/
def defaultStep {α : Type} :
    Bool × List (PKey × α) → PKey × α → Bool × List (PKey × α) :=
  fun bc kv =>
    match dlookup bc.2 kv.1 with
    | none => (true, dupsert bc.2 kv.1 kv.2)
    | some _ => bc

/-- `Preferences.set_default` (lines 445-481). -/
def Preferences.set_default (fs : FS) (st : St) (preferences : Option (PDict PVal))
    (dynamic : Option (PDict DynV)) : Out :=
  if preferences.isNone && dynamic.isNone then
    ⟨some (.validation "Both preferences and dynamic can't be None"), st, []⟩
  else
    let dynRes : Bool × List (PKey × DynV) :=
      match dynamic with
      | none => (false, embedDynEntries st.dyn.entries)
      | some Dd => Dd.entries.foldl defaultStep (false, embedDynEntries st.dyn.entries)
    let prefRes : Bool × List (PKey × PVal) :=
      match preferences with
      | none => (false, st.prefs.entries)
      | some Pd => Pd.entries.foldl defaultStep (false, st.prefs.entries)
    if dynRes.1 || prefRes.1 then
      Preferences.set_preferences fs st ⟨prefRes.2, st.prefs.isOrd⟩ (some ⟨dynRes.2, st.dyn.isOrd⟩)
    else ⟨none, st, []⟩

/-- `Preferences.__load_or_create` when no file exists (lines 277-280):
write an empty document directly to the real location (no temporary
pre-check on this path) and start with empty mappings. -/
def Preferences.construct (fs : FS) : Out :=
  let content := get_lines ⟨[], false⟩ ⟨[], false⟩
  if !fs.realOk then
    ⟨some (.persistReal "unable to write preferences file."), ⟨⟨[], false⟩, ⟨[], false⟩, none⟩, []⟩
  else ⟨none, ⟨⟨[], false⟩, ⟨[], false⟩, some content⟩, [.realWrite content]⟩

/-! ### The reader `Preferences.get` and the evaluator abstraction -/

/-- The evaluation context abstracts `__import__` and `eval`: which
modules import successfully, and what evaluating an expression string with
a given list of modules in scope returns (`.error` = the evaluation
raised). -/
structure EvalCtx where
  importOk : String → Bool
  evalFn : String → List String → Except String PVal

/-- The format string of the raise at line 413: two `%s` placeholders but
three supplied arguments `(lib, pref, e)`. -/
def importFmt : String :=
  "Unable to import module '%s' for preference '%s' evaluation (e)"

/-- The format string of the raise at line 417. -/
def evalFmt : String := "Unable to evaluate preference '%s'"

/-- CPython `str` of a preference value (`str` of a string is the string
itself). -/
def strOfVal : PVal → String
  | .pstr s => s
  | v => renderVal v

/-- `Preferences.get` (lines 392-419). -/
def Preferences.get (ctx : EvalCtx) (st : St) (key : PKey) (default : PVal) :
    Except PErr PVal :=
  let pref := (dlookup st.prefs.entries key).getD default
  let dyn := (dlookup st.dyn.entries key).getD []
  if dyn.length ≠ 0 then
    match dyn.find? (fun m => !ctx.importOk m) with
    | some lib =>
      match pyFormat importFmt [lib, strOfVal pref, "ImportError"] with
      | .ok m => .error (.appError m)
      | .error m => .error (.typeError m)
    | none =>
      let res : Except String PVal :=
        match pref with
        | .pstr e => ctx.evalFn e dyn
        | _ => .error "eval() arg 1 must be a string, bytes or code object"
      match res with
      | .ok v => .ok v
      | .error _ =>
        match pyFormat evalFmt [keyStr key] with
        | .ok m => .error (.appError m)
        | .error m => .error (.typeError m)
  else .ok pref

/-- Substring test on character lists (used to state facts about messages
and rendered documents). -/
def hasSubstr (needle hay : List Char) : Bool :=
  hay.tails.any fun t => needle.isPrefixOf t

/-- The keys of an association list. -/
def dkeys {α : Type} (l : List (PKey × α)) : List PKey := l.map Prod.fst

/-! ## Lemmas -/

theorem linesOf_append_line (l rest : List Char) (hl : '\n' ∉ l) :
    linesOf (l ++ '\n' :: rest) = l :: linesOf rest := by
  induction l with
  | nil => simp [linesOf]
  | cons c t ih =>
    have hc : c ≠ '\n' := fun h => hl (by simp [h])
    have ht : '\n' ∉ t := fun h => hl (List.mem_cons_of_mem _ h)
    simp [linesOf, hc, ih ht]

theorem execDoc_append (st : LoadSt) (a b : List (List Char)) :
    execDoc st (a ++ b) = (execDoc st a).bind fun st' => execDoc st' b := by
  induction a generalizing st with
  | nil => simp [execDoc, Except.bind]
  | cons l t ih =>
    simp only [List.cons_append, execDoc]
    cases procLine st l with
    | error e => simp [Except.bind]
    | ok st' => simp [Except.bind, ih]

theorem dropWhile_sp_replicate (n : Nat) (l : List Char) :
    (List.replicate n ' ' ++ l).dropWhile (· = ' ') = l.dropWhile (· = ' ') := by
  induction n with
  | zero => simp
  | succ m ih => simp [List.replicate_succ, List.dropWhile, ih]

/-! ### Decimal round trip -/

theorem digitChar_isDigit {d : Nat} (h : d < 10) : (digitChar d).isDigit = true := by
  interval_cases d <;> decide

theorem digitVal_digitChar {d : Nat} (h : d < 10) : digitVal (digitChar d) = d := by
  interval_cases d <;> decide

theorem natDigitsF_congr : ∀ n fuel, n < fuel → natDigitsF fuel n = natDigits n := by
  intro n
  induction n using Nat.strong_induction_on with
  | _ n ih =>
    intro fuel hf
    match fuel, hf with
    | f + 1, hf =>
      by_cases h10 : n < 10
      · simp [natDigitsF, natDigits, h10]
      · have hdiv : n / 10 < n := Nat.div_lt_self (by omega) (by omega)
        have h1 : natDigitsF f (n / 10) = natDigits (n / 10) := ih _ hdiv _ (by omega)
        have h2 : natDigitsF n (n / 10) = natDigits (n / 10) := ih _ hdiv _ (by omega)
        rw [natDigits, natDigitsF, if_neg h10, h1]
        rw [show n + 1 = n + 1 from rfl, natDigitsF, if_neg h10, h2]

theorem natDigits_lt_ten {n : Nat} (h : n < 10) : natDigits n = [digitChar n] := by
  simp [natDigits, natDigitsF, h]

theorem natDigits_ge_ten {n : Nat} (h : ¬ n < 10) :
    natDigits n = natDigits (n / 10) ++ [digitChar (n % 10)] := by
  rw [natDigits, natDigitsF, if_neg h, natDigitsF_congr (n / 10) n
    (Nat.div_lt_self (by omega) (by omega))]

theorem natDigits_all_digits : ∀ n c, c ∈ natDigits n → c.isDigit = true := by
  intro n
  induction n using Nat.strong_induction_on with
  | _ n ih =>
    intro c hc
    by_cases h10 : n < 10
    · rw [natDigits_lt_ten h10] at hc
      simp at hc
      exact hc ▸ digitChar_isDigit h10
    · rw [natDigits_ge_ten h10] at hc
      rcases List.mem_append.mp hc with h | h
      · exact ih _ (Nat.div_lt_self (by omega) (by omega)) _ h
      · simp at h
        exact h ▸ digitChar_isDigit (Nat.mod_lt _ (by omega))

theorem natDigits_ne_nil (n : Nat) : natDigits n ≠ [] := by
  by_cases h10 : n < 10
  · rw [natDigits_lt_ten h10]; simp
  · rw [natDigits_ge_ten h10]; simp

theorem digitsToNat_append_one (xs : List Char) (c : Char) :
    digitsToNat (xs ++ [c]) = 10 * digitsToNat xs + digitVal c := by
  simp [digitsToNat, List.foldl_append]

theorem digitsToNat_natDigits : ∀ n, digitsToNat (natDigits n) = n := by
  intro n
  induction n using Nat.strong_induction_on with
  | _ n ih =>
    by_cases h10 : n < 10
    · rw [natDigits_lt_ten h10]
      simp [digitsToNat, digitVal_digitChar h10]
    · rw [natDigits_ge_ten h10, digitsToNat_append_one,
        ih _ (Nat.div_lt_self (by omega) (by omega)),
        digitVal_digitChar (Nat.mod_lt _ (by omega))]
      omega

theorem takeDigits_spec (ds rest : List Char) (hd : ∀ c ∈ ds, c.isDigit = true)
    (hr : ∀ c, rest.head? = some c → c.isDigit = false) :
    takeDigits (ds ++ rest) = (ds, rest) := by
  induction ds with
  | nil =>
    cases rest with
    | nil => simp [takeDigits]
    | cons c r =>
      have := hr c rfl
      simp [takeDigits, this]
  | cons c t ih =>
    have hc : c.isDigit = true := hd c (List.mem_cons_self _ _)
    have ht : ∀ x ∈ t, x.isDigit = true := fun x hx => hd x (List.mem_cons_of_mem _ hx)
    simp [takeDigits, hc, ih ht]

/-! ### String-literal round trip -/

theorem mk_data (s : String) : String.mk s.data = s := by
  cases s; rfl

theorem hexVal_hexDigitChar {d : Nat} (h : d < 16) : hexVal (hexDigitChar d) = some d := by
  interval_cases d <;> decide

theorem parseStrBody_escChar (q c : Char) (hq : q = '\'' ∨ q = '"') (rest : List Char) :
    parseStrBody q (escChar q c ++ rest) =
      (parseStrBody q rest).map fun p => (c :: p.1, p.2) := by
  unfold escChar
  split_ifs with h1 h2 h3 h4 h5 h6
  · subst h1; rcases hq with rfl | rfl <;> (rw [parseStrBody.eq_def]; simp)
  · subst h2; rcases hq with rfl | rfl <;> (rw [parseStrBody.eq_def]; simp)
  · subst h3; rcases hq with rfl | rfl <;> (rw [parseStrBody.eq_def]; simp)
  · subst h4; rcases hq with rfl | rfl <;> (rw [parseStrBody.eq_def]; simp)
  · subst h5; rcases hq with rfl | rfl <;> (rw [parseStrBody.eq_def]; simp)
  · -- hex escape of an ASCII non-printable
    have ht : c.toNat < 128 := by rcases h6 with h | h <;> omega
    have hvd := hexVal_hexDigitChar (d := c.toNat / 16) (by omega)
    have hvm := hexVal_hexDigitChar (d := c.toNat % 16) (by omega)
    have hc : Char.ofNat (16 * (c.toNat / 16) + c.toNat % 16) = c := by
      rw [Nat.div_add_mod, Char.ofNat_toNat]
    rcases hq with rfl | rfl <;>
      (rw [parseStrBody.eq_def]; simp [hvd, hvm, hc])
  · -- printable raw character: `c` is neither a backslash nor the quote
    rcases hq with rfl | rfl <;>
      (rw [parseStrBody.eq_def]; simp [h1, h2])

theorem parseStrBody_escBody (q : Char) (hq : q = '\'' ∨ q = '"') :
    ∀ (s rest : List Char),
      parseStrBody q (escBody q s ++ q :: rest) = some (s, rest) := by
  intro s
  induction s with
  | nil =>
    intro rest
    rcases hq with rfl | rfl <;> (rw [escBody]; rw [parseStrBody.eq_def]; simp)
  | cons c t ih =>
    intro rest
    have hb : escBody q (c :: t) = escChar q c ++ escBody q t := by
      simp [escBody]
    rw [hb, List.append_assoc, parseStrBody_escChar q c hq, ih rest]
    rfl

theorem pyRepr_data (s : String) :
    ∃ q : Char, (q = '\'' ∨ q = '"') ∧
      (pyRepr s).data = q :: (escBody q s.data ++ [q]) := by
  by_cases hA : (s.data.contains '\'' && !(s.data.contains '"')) = true
  · refine ⟨'"', Or.inr rfl, ?_⟩
    show (pyRepr s).data = _
    unfold pyRepr
    rw [if_pos hA]
    rfl
  · refine ⟨'\'', Or.inl rfl, ?_⟩
    show (pyRepr s).data = _
    unfold pyRepr
    rw [if_neg hA]
    rfl

/-- Parsing a rendered string literal with `parseStrLit`. -/
theorem parseStrLit_pyRepr (s : String) (rest : List Char) :
    parseStrLit ((pyRepr s).data ++ rest) = some (s, rest) := by
  obtain ⟨q, hq, hdata⟩ := pyRepr_data s
  have hshape : (pyRepr s).data ++ rest = q :: (escBody q s.data ++ q :: rest) := by
    rw [hdata]; simp
  rcases hq with rfl | rfl
  · rw [hshape, parseStrLit.eq_def]
    simp [parseStrBody_escBody '\'' (Or.inl rfl) s.data rest, mk_data]
  · rw [hshape, parseStrLit.eq_def]
    simp [parseStrBody_escBody '"' (Or.inr rfl) s.data rest, mk_data]

/-! ### Integer and key literal round trip -/

theorem ne_of_isDigit {c d : Char} (h : c.isDigit = true) (hd : d.isDigit = false) : c ≠ d := by
  intro hc
  subst hc
  rw [h] at hd
  cases hd

theorem not_prefix_of_head_ne {a c : Char} (as r : List Char) (h : c ≠ a) :
    (a :: as).isPrefixOf (c :: r) = false := by
  simp [List.isPrefixOf]
  intro hh
  exact absurd hh.symm h

theorem intStr_data_nonneg {n : Int} (h : ¬ n < 0) : (intStr n).data = natDigits n.natAbs := by
  rw [intStr, if_neg h]

theorem intStr_data_neg {n : Int} (h : n < 0) : (intStr n).data = '-' :: natDigits n.natAbs := by
  rw [intStr, if_pos h]

theorem parseKey_renderKey (k : PKey) (rest : List Char)
    (hr : ∀ c, rest.head? = some c → c.isDigit = false) :
    parseKey ((renderKey k).data ++ rest) = some (k, rest) := by
  cases k with
  | kstr s =>
    obtain ⟨q, hq, hdata⟩ := pyRepr_data s
    have hshape : (renderKey (.kstr s)).data ++ rest = q :: (escBody q s.data ++ q :: rest) := by
      show (pyRepr s).data ++ rest = _
      rw [hdata]; simp
    rcases hq with rfl | rfl
    · rw [hshape, parseKey.eq_def]
      simp [parseStrBody_escBody '\'' (Or.inl rfl) s.data rest, mk_data]
    · rw [hshape, parseKey.eq_def]
      simp [parseStrBody_escBody '"' (Or.inr rfl) s.data rest, mk_data]
  | kint n =>
    have htd : takeDigits (natDigits n.natAbs ++ rest) = (natDigits n.natAbs, rest) :=
      takeDigits_spec _ _ (fun c hc => natDigits_all_digits _ c hc) hr
    by_cases hn : n < 0
    · have hshape : (renderKey (.kint n)).data ++ rest = '-' :: (natDigits n.natAbs ++ rest) := by
        show (intStr n).data ++ rest = _
        rw [intStr_data_neg hn]; simp
      rw [hshape, parseKey.eq_def]
      simp [htd, natDigits_ne_nil, digitsToNat_natDigits]
      rw [abs_of_neg hn]; ring
    · obtain ⟨d, ds, hds⟩ : ∃ d ds, natDigits n.natAbs = d :: ds := by
        cases hnn : natDigits n.natAbs with
        | nil => exact absurd hnn (natDigits_ne_nil _)
        | cons d ds => exact ⟨d, ds, rfl⟩
      have hd : d.isDigit = true := natDigits_all_digits _ d (by rw [hds]; simp)
      have hshape : (renderKey (.kint n)).data ++ rest = d :: (ds ++ rest) := by
        show (intStr n).data ++ rest = _
        rw [intStr_data_nonneg hn, hds]; simp
      rw [hshape, parseKey.eq_def]
      have h1 : d ≠ '\'' := ne_of_isDigit hd (by decide)
      have h2 : d ≠ '"' := ne_of_isDigit hd (by decide)
      have h3 : d ≠ '-' := ne_of_isDigit hd (by decide)
      have htd2 : takeDigits (d :: (ds ++ rest)) = (natDigits n.natAbs, rest) := by
        rw [show d :: (ds ++ rest) = (d :: ds) ++ rest from rfl, ← hds, htd]
      simp [h1, h2, h3, hd, htd2, digitsToNat_natDigits]
      omega

/-! ### Value literal round trip -/

theorem natDigits_cons (n : Nat) : ∃ d ds, natDigits n = d :: ds ∧ d.isDigit = true := by
  cases hnn : natDigits n with
  | nil => exact absurd hnn (natDigits_ne_nil _)
  | cons d ds =>
    exact ⟨d, ds, rfl, natDigits_all_digits n d (by rw [hnn]; simp)⟩

theorem renderVal_plist_data (l : List PVal) :
    (renderVal (.plist l)).data = '[' :: ((renderElems l).data ++ [']']) := by
  show ("[" ++ renderElems l ++ "]").data = _
  simp [String.data_append]

theorem renderElems_cons2_data (x y : PVal) (t : List PVal) :
    (renderElems (x :: y :: t)).data =
      (renderVal x).data ++ ',' :: ' ' :: (renderElems (y :: t)).data := by
  show (renderVal x ++ ", " ++ renderElems (y :: t)).data = _
  simp [String.data_append]

theorem renderVal_head (v : PVal) :
    ∃ c t, (renderVal v).data = c :: t ∧ c ≠ ']' := by
  cases v with
  | pstr s =>
    obtain ⟨q, hq, hdata⟩ := pyRepr_data s
    refine ⟨q, escBody q s.data ++ [q], ?_, ?_⟩
    · exact hdata
    · rcases hq with rfl | rfl <;> decide
  | pint n =>
    by_cases hn : n < 0
    · exact ⟨'-', natDigits n.natAbs, intStr_data_neg hn, by decide⟩
    · obtain ⟨d, ds, hds, hd⟩ := natDigits_cons n.natAbs
      refine ⟨d, ds, ?_, ne_of_isDigit hd (by decide)⟩
      rw [show (renderVal (.pint n)).data = (intStr n).data from rfl, intStr_data_nonneg hn, hds]
  | pbool b =>
    cases b
    · exact ⟨'F', ['a', 'l', 's', 'e'], by decide, by decide⟩
    · exact ⟨'T', ['r', 'u', 'e'], by decide, by decide⟩
  | plist l =>
    exact ⟨'[', (renderElems l).data ++ [']'], renderVal_plist_data l, by decide⟩

theorem renderElems_head (x : PVal) (xs : List PVal) :
    ∃ c t, (renderElems (x :: xs)).data = c :: t ∧ c ≠ ']' := by
  obtain ⟨c, t, hct, hne⟩ := renderVal_head x
  cases xs with
  | nil => exact ⟨c, t, hct, hne⟩
  | cons y ys =>
    refine ⟨c, t ++ ',' :: ' ' :: (renderElems (y :: ys)).data, ?_, hne⟩
    rw [renderElems_cons2_data, hct]
    simp

theorem parse_render_aux : ∀ N : Nat,
    (∀ v : PVal, sizeOf v ≤ N → ∀ fuel rest, (renderVal v).data.length ≤ fuel →
        (∀ c, rest.head? = some c → c.isDigit = false) →
        parseVal fuel ((renderVal v).data ++ rest) = some (v, rest)) ∧
    (∀ l : List PVal, l ≠ [] → sizeOf l ≤ N → ∀ fuel rest,
        (renderElems l).data.length + 1 ≤ fuel →
        parseElems fuel ((renderElems l).data ++ ']' :: rest) = some (l, rest)) := by
  intro N
  induction N using Nat.strong_induction_on with
  | _ N ih =>
    constructor
    · intro v hv fuel rest hfuel hrest
      cases v with
      | pstr s =>
        obtain ⟨q, hq, hdata⟩ := pyRepr_data s
        have hshape : (renderVal (.pstr s)).data ++ rest = q :: (escBody q s.data ++ q :: rest) := by
          show (pyRepr s).data ++ rest = _
          rw [hdata]; simp
        have hlen : 1 ≤ fuel := by
          refine le_trans ?_ hfuel
          show 1 ≤ (pyRepr s).data.length
          rw [hdata]; simp
        cases fuel with
        | zero => omega
        | succ f =>
          rw [hshape, parseVal.eq_def]
          rcases hq with rfl | rfl
          · simp [parseStrBody_escBody '\'' (Or.inl rfl) s.data rest, mk_data]
          · simp [parseStrBody_escBody '"' (Or.inr rfl) s.data rest, mk_data]
      | pint n =>
        have htd : takeDigits (natDigits n.natAbs ++ rest) = (natDigits n.natAbs, rest) :=
          takeDigits_spec _ _ (fun c hc => natDigits_all_digits _ c hc) hrest
        have hlen : 1 ≤ fuel := by
          refine le_trans ?_ hfuel
          obtain ⟨c, t, hct, _⟩ := renderVal_head (.pint n)
          rw [hct]; simp
        cases fuel with
        | zero => omega
        | succ f =>
          by_cases hn : n < 0
          · have hshape : (renderVal (.pint n)).data ++ rest = '-' :: (natDigits n.natAbs ++ rest) := by
              show (intStr n).data ++ rest = _
              rw [intStr_data_neg hn]; simp
            rw [hshape, parseVal.eq_def]
            simp [List.isPrefixOf, htd, natDigits_ne_nil, digitsToNat_natDigits]
            rw [abs_of_neg hn]; ring
          · obtain ⟨d, ds, hds, hd⟩ := natDigits_cons n.natAbs
            have hshape : (renderVal (.pint n)).data ++ rest = d :: (ds ++ rest) := by
              show (intStr n).data ++ rest = _
              rw [intStr_data_nonneg hn, hds]; simp
            have h1 : d ≠ '\'' := ne_of_isDigit hd (by decide)
            have h2 : d ≠ '"' := ne_of_isDigit hd (by decide)
            have h3 : d ≠ '[' := ne_of_isDigit hd (by decide)
            have h4 : d ≠ '-' := ne_of_isDigit hd (by decide)
            have h5 : d ≠ 'T' := ne_of_isDigit hd (by decide)
            have h6 : d ≠ 'F' := ne_of_isDigit hd (by decide)
            have htd2 : takeDigits (d :: (ds ++ rest)) = (natDigits n.natAbs, rest) := by
              rw [show d :: (ds ++ rest) = (d :: ds) ++ rest from rfl, ← hds, htd]
            have hpT : ("True".data.isPrefixOf (d :: (ds ++ rest))) = false :=
              not_prefix_of_head_ne _ _ h5
            have hpF : ("False".data.isPrefixOf (d :: (ds ++ rest))) = false :=
              not_prefix_of_head_ne _ _ h6
            rw [hshape, parseVal.eq_def]
            simp [h1, h2, h3, h4, hd, hpT, hpF, htd2, digitsToNat_natDigits]
            omega
      | pbool b =>
        have hlen : 1 ≤ fuel := by
          refine le_trans ?_ hfuel
          obtain ⟨c, t, hct, _⟩ := renderVal_head (.pbool b)
          rw [hct]; simp
        cases fuel with
        | zero => omega
        | succ f =>
          cases b
          · have hshape : (renderVal (.pbool false)).data ++ rest =
                'F' :: 'a' :: 'l' :: 's' :: 'e' :: rest := rfl
            rw [hshape, parseVal.eq_def]
            simp [List.isPrefixOf]
          · have hshape : (renderVal (.pbool true)).data ++ rest =
                'T' :: 'r' :: 'u' :: 'e' :: rest := rfl
            rw [hshape, parseVal.eq_def]
            simp [List.isPrefixOf]
      | plist l =>
        cases l with
        | nil =>
          have hlen : 2 ≤ fuel := by
            refine le_trans ?_ hfuel
            rw [renderVal_plist_data]
            simp [renderElems]
          cases fuel with
          | zero => omega
          | succ f =>
            have hshape : (renderVal (.plist [])).data ++ rest = '[' :: ']' :: rest := by
              rw [renderVal_plist_data]
              simp [renderElems]
            rw [hshape, parseVal.eq_def]
            simp [List.isPrefixOf]
        | cons x xs =>
          have hsz : sizeOf (x :: xs) ≤ N - 1 := by
            have : sizeOf (PVal.plist (x :: xs)) = 1 + sizeOf (x :: xs) := by simp
            omega
          have hN1 : N - 1 < N := by
            have : 1 ≤ sizeOf (PVal.plist (x :: xs)) := by
              have : sizeOf (PVal.plist (x :: xs)) = 1 + sizeOf (x :: xs) := by simp
              omega
            omega
          obtain ⟨c0, t0, hc0, hc0ne⟩ := renderElems_head x xs
          have hshape : (renderVal (.plist (x :: xs))).data ++ rest =
              '[' :: (c0 :: (t0 ++ ']' :: rest)) := by
            rw [renderVal_plist_data, hc0]
            simp
          have hlen : (renderElems (x :: xs)).data.length + 2 ≤ fuel := by
            refine le_trans ?_ hfuel
            rw [renderVal_plist_data]
            simp
          cases fuel with
          | zero => omega
          | succ f =>
            have hinner : parseElems f ((renderElems (x :: xs)).data ++ ']' :: rest) =
                some (x :: xs, rest) := by
              refine (ih (N - 1) hN1).2 (x :: xs) (by simp) hsz f rest ?_
              omega
            have ht0 : c0 :: (t0 ++ ']' :: rest) = (renderElems (x :: xs)).data ++ ']' :: rest := by
              rw [hc0]; simp
            have hinner' : parseElems f (c0 :: (t0 ++ ']' :: rest)) = some (x :: xs, rest) := by
              rw [ht0]; exact hinner
            rw [hshape, parseVal.eq_def]
            simp [List.isPrefixOf, hc0ne, hinner']
    · intro l hl hN fuel rest hfuel
      cases l with
      | nil => exact absurd rfl hl
      | cons x xs =>
        have hszx : sizeOf x ≤ N - 1 := by
          have : sizeOf (x :: xs) = 1 + sizeOf x + sizeOf xs := by simp
          have hx : 1 ≤ sizeOf xs := by
            cases xs with
            | nil => simp
            | cons a b => simp; omega
          omega
        have hN1 : N - 1 < N := by
          have : sizeOf (x :: xs) = 1 + sizeOf x + sizeOf xs := by simp
          omega
        cases xs with
        | nil =>
          have hre : renderElems [x] = renderVal x := by simp [renderElems]
          have hlen : (renderVal x).data.length + 1 ≤ fuel := by
            rw [hre] at hfuel; exact hfuel
          cases fuel with
          | zero => omega
          | succ f =>
            have hx : parseVal f ((renderVal x).data ++ ']' :: rest) = some (x, ']' :: rest) := by
              refine (ih (N - 1) hN1).1 x hszx f (']' :: rest) (by omega) ?_
              intro c hc
              simp at hc
              subst hc
              decide
            rw [hre, parseElems.eq_def]
            simp [hx]
        | cons y ys =>
          have hszt : sizeOf (y :: ys) ≤ N - 1 := by
            have : sizeOf (x :: y :: ys) = 1 + sizeOf x + sizeOf (y :: ys) := by simp
            have hx : 1 ≤ sizeOf x := by
              cases x <;> (simp; try omega)
            omega
          have hshape : (renderElems (x :: y :: ys)).data ++ ']' :: rest =
              (renderVal x).data ++ ',' :: ' ' :: ((renderElems (y :: ys)).data ++ ']' :: rest) := by
            rw [renderElems_cons2_data]
            simp
          have hlen : (renderVal x).data.length + 2 + (renderElems (y :: ys)).data.length + 1 ≤ fuel := by
            refine le_trans ?_ hfuel
            rw [renderElems_cons2_data]
            simp
            omega
          cases fuel with
          | zero => omega
          | succ f =>
            have hx : parseVal f ((renderVal x).data ++
                ',' :: ' ' :: ((renderElems (y :: ys)).data ++ ']' :: rest)) =
                some (x, ',' :: ' ' :: ((renderElems (y :: ys)).data ++ ']' :: rest)) := by
              refine (ih (N - 1) hN1).1 x hszx f _ (by omega) ?_
              intro c hc
              simp at hc
              subst hc
              decide
            have ht : parseElems f ((renderElems (y :: ys)).data ++ ']' :: rest) =
                some (y :: ys, rest) := by
              refine (ih (N - 1) hN1).2 (y :: ys) (by simp) hszt f rest ?_
              omega
            rw [hshape, parseElems.eq_def]
            simp [hx, ht]

theorem parseVal_renderVal (v : PVal) (rest : List Char)
    (hrest : ∀ c, rest.head? = some c → c.isDigit = false) (fuel : Nat)
    (hfuel : (renderVal v).data.length ≤ fuel) :
    parseVal fuel ((renderVal v).data ++ rest) = some (v, rest) :=
  (parse_render_aux (sizeOf v)).1 v le_rfl fuel rest hfuel hrest

/-! ### No newline occurs inside a rendered key or value -/

theorem digitChar_ne_newline (d : Nat) : digitChar d ≠ '\n' := by
  by_cases h : d < 10
  · interval_cases d <;> decide
  · unfold digitChar
    rw [List.getD_eq_default _ _ (by simp; omega)]
    decide

theorem hexDigitChar_ne_newline (d : Nat) : hexDigitChar d ≠ '\n' := by
  by_cases h : d < 16
  · interval_cases d <;> decide
  · unfold hexDigitChar
    rw [List.getD_eq_default _ _ (by simp; omega)]
    decide

theorem natDigits_no_newline (n : Nat) : '\n' ∉ natDigits n := by
  intro hmem
  have := natDigits_all_digits n '\n' hmem
  simp at this

theorem intStr_no_newline (n : Int) : '\n' ∉ (intStr n).data := by
  by_cases hn : n < 0
  · rw [intStr_data_neg hn]
    intro h
    rcases List.mem_cons.mp h with h | h
    · cases h
    · exact natDigits_no_newline _ h
  · rw [intStr_data_nonneg hn]
    exact natDigits_no_newline _

theorem escChar_no_newline (q c : Char) (hq : q ≠ '\n') : '\n' ∉ escChar q c := by
  unfold escChar
  split_ifs with h1 h2 h3 h4 h5 h6
  · decide
  · intro h
    rcases List.mem_cons.mp h with h | h
    · cases h
    · simp at h
      exact hq h.symm
  · decide
  · decide
  · decide
  · intro h
    simp at h
    rcases h with h | h
    · exact hexDigitChar_ne_newline _ h.symm
    · exact hexDigitChar_ne_newline _ h.symm
  · intro h
    simp at h
    exact h3 h.symm

theorem pyRepr_no_newline (s : String) : '\n' ∉ (pyRepr s).data := by
  obtain ⟨q, hq, hdata⟩ := pyRepr_data s
  rw [hdata]
  have hqn : q ≠ '\n' := by rcases hq with rfl | rfl <;> decide
  intro h
  rcases List.mem_cons.mp h with h | h
  · exact hqn h.symm
  · rcases List.mem_append.mp h with h | h
    · rcases List.mem_flatten.mp h with ⟨piece, hp, hm⟩
      rcases List.mem_map.mp hp with ⟨c, _, rfl⟩
      exact escChar_no_newline q c hqn hm
    · simp at h
      exact hqn h.symm

theorem renderVal_no_newline : ∀ N : Nat,
    (∀ v : PVal, sizeOf v ≤ N → '\n' ∉ (renderVal v).data) ∧
    (∀ l : List PVal, sizeOf l ≤ N → '\n' ∉ (renderElems l).data) := by
  intro N
  induction N using Nat.strong_induction_on with
  | _ N ih =>
    constructor
    · intro v hv
      cases v with
      | pstr s => exact pyRepr_no_newline s
      | pint n => exact intStr_no_newline n
      | pbool b => cases b <;> decide
      | plist l =>
        rw [renderVal_plist_data]
        intro h
        rcases List.mem_cons.mp h with h | h
        · cases h
        · rcases List.mem_append.mp h with h | h
          · have hsz : sizeOf l ≤ N - 1 := by
              have : sizeOf (PVal.plist l) = 1 + sizeOf l := by simp
              omega
            have hN1 : N - 1 < N := by
              have : sizeOf (PVal.plist l) = 1 + sizeOf l := by simp
              omega
            exact (ih (N - 1) hN1).2 l hsz h
          · simp at h
    · intro l hl
      cases l with
      | nil => simp [renderElems]
      | cons x xs =>
        have hszx : sizeOf x ≤ N - 1 := by
          have : sizeOf (x :: xs) = 1 + sizeOf x + sizeOf xs := by simp
          have hx : 1 ≤ sizeOf xs := by
            cases xs with
            | nil => simp
            | cons a b => simp; omega
          omega
        have hN1 : N - 1 < N := by
          have : sizeOf (x :: xs) = 1 + sizeOf x + sizeOf xs := by simp
          omega
        cases xs with
        | nil =>
          rw [show renderElems [x] = renderVal x from by simp [renderElems]]
          exact (ih (N - 1) hN1).1 x hszx
        | cons y ys =>
          have hszt : sizeOf (y :: ys) ≤ N - 1 := by
            have : sizeOf (x :: y :: ys) = 1 + sizeOf x + sizeOf (y :: ys) := by simp
            have hx : 1 ≤ sizeOf x := by
              cases x <;> (simp; try omega)
            omega
          rw [renderElems_cons2_data]
          intro h
          rcases List.mem_append.mp h with h | h
          · exact (ih (N - 1) hN1).1 x hszx h
          · rcases List.mem_cons.mp h with h | h
            · cases h
            · rcases List.mem_cons.mp h with h | h
              · cases h
              · exact (ih (N - 1) hN1).2 (y :: ys) hszt h

theorem renderVal_no_newline' (v : PVal) : '\n' ∉ (renderVal v).data :=
  (renderVal_no_newline (sizeOf v)).1 v le_rfl

theorem renderKey_no_newline (k : PKey) : '\n' ∉ (renderKey k).data := by
  cases k with
  | kstr s => exact pyRepr_no_newline s
  | kint n => exact intStr_no_newline n

/-! ### Item-assignment lines -/

theorem parseEntryRest_inv (k : PKey) (v : PVal) (pad : Nat) :
    parseEntryRest (fun cs => parseVal cs.length cs)
      ((renderKey k).data ++
        ']' :: (List.replicate pad ' ' ++ ' ' :: '=' :: ' ' :: (renderVal v).data)) =
      some (k, v) := by
  have hkey := parseKey_renderKey k
    (']' :: (List.replicate pad ' ' ++ ' ' :: '=' :: ' ' :: (renderVal v).data))
    (by intro c hc; simp at hc; subst hc; decide)
  have hval : parseVal (renderVal v).data.length (renderVal v).data = some (v, []) := by
    have := parseVal_renderVal v [] (by intro c hc; simp at hc) (renderVal v).data.length le_rfl
    simpa using this
  rw [parseEntryRest, hkey]
  simp only [Option.bind_eq_bind, Option.some_bind]
  have hdrop : (List.replicate pad ' ' ++ ' ' :: '=' :: ' ' :: (renderVal v).data).dropWhile
      (· = ' ') = '=' :: ' ' :: (renderVal v).data := by
    rw [dropWhile_sp_replicate]
    simp [List.dropWhile]
  have hval' : parseVal (renderVal v).length (renderVal v).data = some (v, []) := hval
  simp [hdrop, hval']

theorem joinAll_data (L : List String) :
    (joinAll L).data = (L.map String.data).flatten := by
  induction L with
  | nil => rfl
  | cons s t ih => simp [joinAll, String.data_append, ih]

theorem prefLine_data (maxLen : Nat) (k : PKey) (v : PVal) :
    (prefLine maxLen k v).data =
      ('p' :: 'r' :: 'e' :: 'f' :: 'e' :: 'r' :: 'e' :: 'n' :: 'c' :: 'e' :: 's' :: '[' ::
        ((renderKey k).data ++
          ']' :: (List.replicate (maxLen - ("preferences[" ++ renderKey k ++ "]").length) ' '
            ++ ' ' :: '=' :: ' ' :: (renderVal v).data))) ++ ['\n'] := by
  have h1 : ("preferences[" : String).data = ['p','r','e','f','e','r','e','n','c','e','s','['] := rfl
  have h2 : ("]" : String).data = [']'] := rfl
  have h3 : (" = " : String).data = [' ', '=', ' '] := rfl
  have h4 : ("\n" : String).data = ['\n'] := rfl
  simp [prefLine, padTo, String.data_append, h1, h2, h3, h4]

theorem prefLine_body_no_newline (maxLen : Nat) (k : PKey) (v : PVal) :
    '\n' ∉ ('p' :: 'r' :: 'e' :: 'f' :: 'e' :: 'r' :: 'e' :: 'n' :: 'c' :: 'e' :: 's' :: '[' ::
        ((renderKey k).data ++
          ']' :: (List.replicate (maxLen - ("preferences[" ++ renderKey k ++ "]").length) ' '
            ++ ' ' :: '=' :: ' ' :: (renderVal v).data))) := by
  intro h
  simp [List.mem_replicate] at h
  rcases h with h | h
  · exact renderKey_no_newline k h
  · exact renderVal_no_newline' v h

theorem procLine_prefEntry (stv : LoadSt) (P : PDict PVal) (hp : stv.prefs = some P)
    (pad : Nat) (k : PKey) (v : PVal) :
    procLine stv
      ('p' :: 'r' :: 'e' :: 'f' :: 'e' :: 'r' :: 'e' :: 'n' :: 'c' :: 'e' :: 's' :: '[' ::
        ((renderKey k).data ++
          ']' :: (List.replicate pad ' ' ++ ' ' :: '=' :: ' ' :: (renderVal v).data))) =
      .ok { stv with prefs := some ⟨dupsert P.entries k v, P.isOrd⟩ } := by
  have hred : ∀ rest : List Char, procLine stv
      ('p' :: 'r' :: 'e' :: 'f' :: 'e' :: 'r' :: 'e' :: 'n' :: 'c' :: 'e' :: 's' :: '[' :: rest) =
      (match stv.prefs with
       | none => .error (.format "name 'preferences' is not defined")
       | some P =>
         match parseEntryRest (fun cs => parseVal cs.length cs) rest with
         | some (k, v) => .ok { stv with prefs := some ⟨dupsert P.entries k v, P.isOrd⟩ }
         | none => .error (.format "invalid syntax")) := fun _ => rfl
  rw [hred, hp, parseEntryRest_inv]

theorem execDoc_prefLines (ents : List (PKey × PVal)) (padf : PKey → Nat) :
    ∀ (stv : LoadSt) (P : PDict PVal), stv.prefs = some P →
    execDoc stv (ents.map fun kv =>
        'p' :: 'r' :: 'e' :: 'f' :: 'e' :: 'r' :: 'e' :: 'n' :: 'c' :: 'e' :: 's' :: '[' ::
          ((renderKey kv.1).data ++
            ']' :: (List.replicate (padf kv.1) ' ' ++ ' ' :: '=' :: ' ' :: (renderVal kv.2).data))) =
      .ok { stv with
            prefs := some ⟨ents.foldl (fun acc kv => dupsert acc kv.1 kv.2) P.entries, P.isOrd⟩ } := by
  induction ents with
  | nil =>
    intro stv P hp
    simp [execDoc, ← hp]
  | cons kv t ih =>
    intro stv P hp
    simp only [List.map_cons, execDoc, procLine_prefEntry stv P hp (padf kv.1) kv.1 kv.2,
      Except.bind]
    rw [ih { stv with prefs := some ⟨dupsert P.entries kv.1 kv.2, P.isOrd⟩ }
        ⟨dupsert P.entries kv.1 kv.2, P.isOrd⟩ rfl]
    simp [List.foldl_cons]

theorem dupsert_fresh {α : Type} (acc : List (PKey × α)) (k : PKey) (v : α)
    (h : dlookup acc k = none) : dupsert acc k v = acc ++ [(k, v)] := by
  induction acc with
  | nil => simp [dupsert]
  | cons kw t ih =>
    obtain ⟨k1, v1⟩ := kw
    rw [dlookup] at h
    by_cases hk : k1 = k
    · rw [if_pos hk] at h
      cases h
    · rw [if_neg hk] at h
      simp [dupsert, hk, ih h]

theorem dlookup_append_nomem {α : Type} (acc : List (PKey × α)) (kv : PKey × α) (key : PKey)
    (h : dlookup acc key = none) (hne : kv.1 ≠ key) :
    dlookup (acc ++ [kv]) key = none := by
  induction acc with
  | nil => simp [dlookup, hne]
  | cons kw t ih =>
    rw [dlookup] at h
    by_cases hk : kw.1 = key
    · rw [if_pos hk] at h
      cases h
    · rw [if_neg hk] at h
      simp only [List.cons_append]
      rw [show kw = (kw.1, kw.2) from rfl, dlookup, if_neg hk]
      exact ih h

theorem foldl_dupsert_append (ents : List (PKey × PVal)) :
    ∀ acc : List (PKey × PVal), (dkeys ents).Nodup →
    (∀ k ∈ dkeys ents, dlookup acc k = none) →
    ents.foldl (fun a kv => dupsert a kv.1 kv.2) acc = acc ++ ents := by
  induction ents with
  | nil => intro acc _ _; simp
  | cons kv t ih =>
    intro acc hnd hfresh
    have hk : dlookup acc kv.1 = none := hfresh kv.1 (by simp [dkeys])
    have hnd' : (dkeys t).Nodup := by
      simp [dkeys] at hnd ⊢
      exact hnd.2
    have hfresh' : ∀ k ∈ dkeys t, dlookup (acc ++ [kv]) k = none := by
      intro k hkmem
      have h1 : dlookup acc k = none := hfresh k (by simp [dkeys] at hkmem ⊢; right; exact hkmem)
      have h2 : kv.1 ≠ k := by
        simp [dkeys] at hnd hkmem
        intro hh
        obtain ⟨x, hx⟩ := hkmem
        exact hnd.1 x (by rw [hh]; exact hx)
      exact dlookup_append_nomem acc kv k h1 h2
    simp only [List.foldl_cons]
    rw [dupsert_fresh acc kv.1 kv.2 hk]
    rw [show (fun a (kv : PKey × PVal) => dupsert a kv.1 kv.2) = fun a kv => dupsert a kv.1 kv.2
      from rfl]
    rw [ih (acc ++ [(kv.1, kv.2)]) hnd' (by simpa using hfresh')]
    simp

theorem linesOf_flatten_lines (L : List (List Char)) (rest : List Char)
    (h : ∀ l ∈ L, '\n' ∉ l) :
    linesOf ((L.map (· ++ ['\n'])).flatten ++ rest) = L ++ linesOf rest := by
  induction L with
  | nil => simp
  | cons l t ih =>
    have hl : '\n' ∉ l := h l (List.mem_cons_self _ _)
    have ht : ∀ x ∈ t, '\n' ∉ x := fun x hx => h x (List.mem_cons_of_mem _ hx)
    have hshape : ((l :: t).map (· ++ ['\n'])).flatten ++ rest =
        l ++ '\n' :: ((t.map (· ++ ['\n'])).flatten ++ rest) := by
      simp
    rw [hshape, linesOf_append_line _ _ hl, ih ht]
    rfl

set_option maxRecDepth 8000 in
theorem get_lines_data_plain (m : PDict PVal) (hord : m.isOrd = false) :
    (get_lines m ⟨[], false⟩).data =
      (List.map (· ++ ['\n'])
        (["# This file is an automatically generated pypref preferences file. ".data,
          ([] : List Char),
          "__pypref_version__ = '4.0.0' ".data,
          ([] : List Char),
          hashBanner.data,
          prefBanner.data,
          "preferences = {}".data]
         ++ (m.entries.map (fun kv =>
              'p' :: 'r' :: 'e' :: 'f' :: 'e' :: 'r' :: 'e' :: 'n' :: 'c' :: 'e' :: 's' :: '[' ::
                ((renderKey kv.1).data ++
                  ']' :: (List.replicate
                      ((pyMaxOrZero (List.map (fun kv => (keyStr kv.1).length) m.entries)
                          + ("preferences[\"\"]" : String).length)
                        - ("preferences[" ++ renderKey kv.1 ++ "]").length) ' '
                    ++ ' ' :: '=' :: ' ' :: (renderVal kv.2).data)))
            ++ [([] : List Char), hashBanner.data, dynBanner.data,
                "dynamic = {}".data]))).flatten := by
  have hemp : ("" : String).data = ([] : List Char) := rfl
  have hentry : (joinAll
      (List.map
        (fun kv => prefLine
          (pyMaxOrZero (List.map (fun kv => (keyStr kv.1).length) m.entries) +
            "preferences[\"\"]".length) kv.1 kv.2)
        m.entries)).data =
      (List.map (fun kv =>
          ('p' :: 'r' :: 'e' :: 'f' :: 'e' :: 'r' :: 'e' :: 'n' :: 'c' :: 'e' :: 's' :: '[' ::
            ((renderKey kv.1).data ++
              ']' :: (List.replicate
                  ((pyMaxOrZero (List.map (fun kv => (keyStr kv.1).length) m.entries)
                      + ("preferences[\"\"]" : String).length)
                    - ("preferences[" ++ renderKey kv.1 ++ "]").length) ' '
                ++ ' ' :: '=' :: ' ' :: (renderVal kv.2).data))) ++ ['\n'])
        m.entries).flatten := by
    rw [joinAll_data, List.map_map]
    congr 1
    refine List.map_congr_left ?_
    intro kv _
    simp only [Function.comp]
    exact prefLine_data _ kv.1 kv.2
  simp only [get_lines, hord, Bool.false_eq_true, if_false, String.data_append,
    List.append_assoc, List.map_nil, joinAll, hemp, List.append_nil, hentry,
    List.map_append, List.flatten_append, List.map_cons, List.flatten_cons,
    List.map_map, List.cons_append, List.nil_append, Function.comp, Function.comp_def,
    List.flatten_nil]

set_option maxRecDepth 8000 in
theorem get_lines_data_ordered (m : PDict PVal) (hord : m.isOrd = true) :
    (get_lines m ⟨[], false⟩).data =
      (List.map (· ++ ['\n'])
        (["# This file is an automatically generated pypref preferences file. ".data,
          ([] : List Char),
          "__pypref_version__ = '4.0.0' ".data,
          ([] : List Char),
          hashBanner.data,
          prefBanner.data,
          "from collections import OrderedDict".data,
          "preferences = OrderedDict()".data]
         ++ (m.entries.map (fun kv =>
              'p' :: 'r' :: 'e' :: 'f' :: 'e' :: 'r' :: 'e' :: 'n' :: 'c' :: 'e' :: 's' :: '[' ::
                ((renderKey kv.1).data ++
                  ']' :: (List.replicate
                      ((pyMaxOrZero (List.map (fun kv => (keyStr kv.1).length) m.entries)
                          + ("preferences[\"\"]" : String).length)
                        - ("preferences[" ++ renderKey kv.1 ++ "]").length) ' '
                    ++ ' ' :: '=' :: ' ' :: (renderVal kv.2).data)))
            ++ [([] : List Char), hashBanner.data, dynBanner.data,
                "from collections import OrderedDict".data,
                "dynamic = OrderedDict()".data]))).flatten := by
  have hemp : ("" : String).data = ([] : List Char) := rfl
  have hentry : (joinAll
      (List.map
        (fun kv => prefLine
          (pyMaxOrZero (List.map (fun kv => (keyStr kv.1).length) m.entries) +
            "preferences[\"\"]".length) kv.1 kv.2)
        m.entries)).data =
      (List.map (fun kv =>
          ('p' :: 'r' :: 'e' :: 'f' :: 'e' :: 'r' :: 'e' :: 'n' :: 'c' :: 'e' :: 's' :: '[' ::
            ((renderKey kv.1).data ++
              ']' :: (List.replicate
                  ((pyMaxOrZero (List.map (fun kv => (keyStr kv.1).length) m.entries)
                      + ("preferences[\"\"]" : String).length)
                    - ("preferences[" ++ renderKey kv.1 ++ "]").length) ' '
                ++ ' ' :: '=' :: ' ' :: (renderVal kv.2).data))) ++ ['\n'])
        m.entries).flatten := by
    rw [joinAll_data, List.map_map]
    congr 1
    refine List.map_congr_left ?_
    intro kv _
    simp only [Function.comp]
    exact prefLine_data _ kv.1 kv.2
  simp only [get_lines, hord, if_true, String.data_append,
    List.append_assoc, List.map_nil, joinAll, hemp, List.append_nil, hentry,
    List.map_append, List.flatten_append, List.map_cons, List.flatten_cons,
    List.map_map, List.cons_append, List.nil_append, Function.comp, Function.comp_def,
    List.flatten_nil]

theorem linesOf_flatten (L : List (List Char)) (h : ∀ l ∈ L, '\n' ∉ l) :
    linesOf (List.map (· ++ ['\n']) L).flatten = L := by
  have h2 := linesOf_flatten_lines L [] h
  rw [List.append_nil] at h2
  rw [h2]
  simp [linesOf]

set_option maxRecDepth 8000 in
set_option maxHeartbeats 2000000 in
/-- C1: round trip of the codec.  Rendering a static mapping `m` (whose keys
are distinct, as Python dict keys are) together with an empty dynamic
mapping, and loading the document back the way `__load_or_create` does,
reproduces `m` exactly — entries, order and `OrderedDict`-ness — and yields
an empty dynamic mapping. -/
theorem C1_codec_roundtrip (m : PDict PVal) (hnd : (dkeys m.entries).Nodup) :
    loadDoc (get_lines m ⟨[], false⟩) = .ok (m, ⟨[], m.isOrd⟩) := by
  obtain ⟨ents, ord⟩ := m
  simp only [dkeys] at hnd
  have hfold : List.foldl (fun acc kv => dupsert acc kv.1 kv.2) ([] : List (PKey × PVal)) ents
      = ents := by
    have h2 := foldl_dupsert_append ents [] (by exact hnd) (fun k _ => rfl)
    simpa using h2
  cases ord
  · -- plain dict
    rw [loadDoc, get_lines_data_plain ⟨ents, false⟩ rfl,
      linesOf_flatten _ (by
        intro l hl
        rcases List.mem_append.mp hl with h | h
        · fin_cases h <;> decide
        · rcases List.mem_append.mp h with h | h
          · rcases List.mem_map.mp h with ⟨kv, _, rfl⟩
            exact prefLine_body_no_newline _ kv.1 kv.2
          · fin_cases h <;> decide)]
    rw [execDoc_append]
    have hpre : execDoc ⟨none, none, none⟩
        ["# This file is an automatically generated pypref preferences file. ".data,
         ([] : List Char),
         "__pypref_version__ = '4.0.0' ".data,
         ([] : List Char),
         hashBanner.data,
         prefBanner.data,
         "preferences = {}".data] = .ok ⟨some "4.0.0", some ⟨[], false⟩, none⟩ := by decide
    rw [hpre]
    simp only [Except.bind]
    rw [execDoc_append]
    have hmid : execDoc ⟨some "4.0.0", some ⟨[], false⟩, none⟩
        (ents.map (fun kv =>
          'p' :: 'r' :: 'e' :: 'f' :: 'e' :: 'r' :: 'e' :: 'n' :: 'c' :: 'e' :: 's' :: '[' ::
            ((renderKey kv.1).data ++
              ']' :: (List.replicate
                  ((pyMaxOrZero (List.map (fun kv => (keyStr kv.1).length) ents)
                      + ("preferences[\"\"]" : String).length)
                    - ("preferences[" ++ renderKey kv.1 ++ "]").length) ' '
                ++ ' ' :: '=' :: ' ' :: (renderVal kv.2).data)))) =
        .ok ⟨some "4.0.0",
             some ⟨List.foldl (fun acc kv => dupsert acc kv.1 kv.2) ([] : List (PKey × PVal)) ents,
                   false⟩,
             none⟩ :=
      execDoc_prefLines ents
        (fun k => (pyMaxOrZero (List.map (fun kv => (keyStr kv.1).length) ents)
            + ("preferences[\"\"]" : String).length)
          - ("preferences[" ++ renderKey k ++ "]").length)
        ⟨some "4.0.0", some ⟨[], false⟩, none⟩ ⟨[], false⟩ rfl
    rw [hmid, hfold]
    simp only [Except.bind]
    have hpost : ∀ stx : LoadSt, execDoc stx
        [([] : List Char), hashBanner.data, dynBanner.data, "dynamic = {}".data] =
        .ok { stx with dyn := some ⟨[], false⟩ } := fun stx => rfl
    rw [hpost]
    rfl
  · -- OrderedDict
    rw [loadDoc, get_lines_data_ordered ⟨ents, true⟩ rfl,
      linesOf_flatten _ (by
        intro l hl
        rcases List.mem_append.mp hl with h | h
        · fin_cases h <;> decide
        · rcases List.mem_append.mp h with h | h
          · rcases List.mem_map.mp h with ⟨kv, _, rfl⟩
            exact prefLine_body_no_newline _ kv.1 kv.2
          · fin_cases h <;> decide)]
    rw [execDoc_append]
    have hpre : execDoc ⟨none, none, none⟩
        ["# This file is an automatically generated pypref preferences file. ".data,
         ([] : List Char),
         "__pypref_version__ = '4.0.0' ".data,
         ([] : List Char),
         hashBanner.data,
         prefBanner.data,
         "from collections import OrderedDict".data,
         "preferences = OrderedDict()".data] =
        .ok ⟨some "4.0.0", some ⟨[], true⟩, none⟩ := by decide
    rw [hpre]
    simp only [Except.bind]
    rw [execDoc_append]
    have hmid : execDoc ⟨some "4.0.0", some ⟨[], true⟩, none⟩
        (ents.map (fun kv =>
          'p' :: 'r' :: 'e' :: 'f' :: 'e' :: 'r' :: 'e' :: 'n' :: 'c' :: 'e' :: 's' :: '[' ::
            ((renderKey kv.1).data ++
              ']' :: (List.replicate
                  ((pyMaxOrZero (List.map (fun kv => (keyStr kv.1).length) ents)
                      + ("preferences[\"\"]" : String).length)
                    - ("preferences[" ++ renderKey kv.1 ++ "]").length) ' '
                ++ ' ' :: '=' :: ' ' :: (renderVal kv.2).data)))) =
        .ok ⟨some "4.0.0",
             some ⟨List.foldl (fun acc kv => dupsert acc kv.1 kv.2) ([] : List (PKey × PVal)) ents,
                   true⟩,
             none⟩ :=
      execDoc_prefLines ents
        (fun k => (pyMaxOrZero (List.map (fun kv => (keyStr kv.1).length) ents)
            + ("preferences[\"\"]" : String).length)
          - ("preferences[" ++ renderKey k ++ "]").length)
        ⟨some "4.0.0", some ⟨[], true⟩, none⟩ ⟨[], true⟩ rfl
    rw [hmid, hfold]
    simp only [Except.bind]
    have hpost : ∀ stx : LoadSt, execDoc stx
        [([] : List Char), hashBanner.data, dynBanner.data,
         "from collections import OrderedDict".data, "dynamic = OrderedDict()".data] =
        .ok { stx with dyn := some ⟨[], true⟩ } := fun stx => rfl
    rw [hpost]
    rfl

theorem C1_codec_roundtrip_witness :
    (dkeys ([(PKey.kstr "path", PVal.pstr "C:\\users\\'me'"),
             (PKey.kstr "multi", PVal.pstr "line1\nline \"2\""),
             (PKey.kint (-7), PVal.pint 42),
             (PKey.kstr "flag", PVal.pbool true),
             (PKey.kstr "lst", PVal.plist [.pint 1, .pstr "two", .plist [.pbool false]])]
      : List (PKey × PVal))).Nodup ∧
    loadDoc (get_lines
        ⟨[(PKey.kstr "path", PVal.pstr "C:\\users\\'me'"),
          (PKey.kstr "multi", PVal.pstr "line1\nline \"2\""),
          (PKey.kint (-7), PVal.pint 42),
          (PKey.kstr "flag", PVal.pbool true),
          (PKey.kstr "lst", PVal.plist [.pint 1, .pstr "two", .plist [.pbool false]])], true⟩
        ⟨[], false⟩) =
      .ok (⟨[(PKey.kstr "path", PVal.pstr "C:\\users\\'me'"),
             (PKey.kstr "multi", PVal.pstr "line1\nline \"2\""),
             (PKey.kint (-7), PVal.pint 42),
             (PKey.kstr "flag", PVal.pbool true),
             (PKey.kstr "lst", PVal.plist [.pint 1, .pstr "two", .plist [.pbool false]])], true⟩,
            ⟨[], true⟩) :=
  ⟨by decide, C1_codec_roundtrip _ (by decide)⟩

/-! ## Lemmas about the store operations -/

theorem dlookup_mem_keys {α : Type} :
    ∀ (l : List (PKey × α)) (k : PKey) (v : α), dlookup l k = some v → k ∈ dkeys l := by
  intro l
  induction l with
  | nil => intro k v h; simp [dlookup] at h
  | cons kw t ih =>
    intro k v h
    obtain ⟨k1, w1⟩ := kw
    simp only [dlookup] at h
    split at h
    · rename_i heq
      simp [dkeys, heq]
    · simp only [dkeys, List.map_cons]
      exact List.mem_cons_of_mem _ (ih k v h)

theorem dkeys_dupsert {α : Type} :
    ∀ (acc : List (PKey × α)) (k : PKey) (v : α) (x : PKey),
      x ∈ dkeys (dupsert acc k v) → x = k ∨ x ∈ dkeys acc := by
  intro acc
  induction acc with
  | nil =>
    intro k v x hx
    simp [dupsert, dkeys] at hx
    exact Or.inl hx
  | cons kw t ih =>
    intro k v x hx
    obtain ⟨k1, w1⟩ := kw
    simp only [dupsert] at hx
    split at hx
    · rename_i heq
      simp only [dkeys, List.map_cons, List.mem_cons] at hx
      rcases hx with rfl | hx
      · exact Or.inl heq
      · exact Or.inr (by simp [dkeys, hx])
    · simp only [dkeys, List.map_cons, List.mem_cons] at hx
      rcases hx with rfl | hx
      · exact Or.inr (by simp [dkeys])
      · rcases ih k v x (by simpa [dkeys] using hx) with h | h
        · exact Or.inl h
        · exact Or.inr (by simp [dkeys] at h ⊢; exact Or.inr h)

theorem normDyn_keys (prefs : List (PKey × PVal)) :
    ∀ (l : List (PKey × DynV)) (acc D' : List (PKey × List String)),
      normDyn prefs acc l = .ok D' →
      ∀ k ∈ dkeys D', k ∈ dkeys acc ∨ (dlookup prefs k).isSome = true := by
  intro l
  induction l with
  | nil =>
    intro acc D' h k hk
    simp only [normDyn] at h
    cases h
    exact Or.inl hk
  | cons kv rest ih =>
    intro acc D' h k hk
    obtain ⟨k1, v1⟩ := kv
    have hstep : ∀ acc2 : List (PKey × List String),
        (∀ x ∈ dkeys acc2, x ∈ dkeys acc ∨ (dlookup prefs x).isSome = true) →
        normDyn prefs acc2 rest = .ok D' →
        k ∈ dkeys acc ∨ (dlookup prefs k).isSome = true := by
      intro acc2 hsub h2
      rcases ih acc2 D' h2 k hk with h3 | h3
      · exact hsub k h3
      · exact Or.inr h3
    cases hni : (dlookup prefs k1).isNone
    · have hsm : (dlookup prefs k1).isSome = true := by
        cases hdl : dlookup prefs k1
        · rw [hdl] at hni; simp at hni
        · rfl
      cases v1 with
      | vnone =>
        simp only [normDyn, hni, Bool.false_eq_true, if_false] at h
        refine hstep _ ?_ h
        intro x hx
        rcases dkeys_dupsert acc k1 _ x hx with rfl | hx2
        · exact Or.inr hsm
        · exact Or.inl hx2
      | vlist ls =>
        simp only [normDyn, hni, Bool.false_eq_true, if_false] at h
        split at h
        · refine hstep _ ?_ h
          intro x hx
          rcases dkeys_dupsert acc k1 _ x hx with rfl | hx2
          · exact Or.inr hsm
          · exact Or.inl hx2
        · cases h
      | vtuple ls =>
        simp only [normDyn, hni, Bool.false_eq_true, if_false] at h
        split at h
        · refine hstep _ ?_ h
          intro x hx
          rcases dkeys_dupsert acc k1 _ x hx with rfl | hx2
          · exact Or.inr hsm
          · exact Or.inl hx2
        · cases h
    · simp only [normDyn, hni, if_true] at h
      exact hstep acc (fun x hx => Or.inl hx) h

theorem set_dynamic_ok_shape (fs : FS) (st : St) (D : PDict DynV)
    (h : (Preferences.set_dynamic fs st D).err = none) :
    ∃ D', normDyn st.prefs.entries [] D.entries = .ok D' ∧
      Preferences.set_dynamic fs st D =
        ⟨none, ⟨st.prefs, ⟨D', false⟩, some (get_lines st.prefs ⟨D', false⟩)⟩,
          [.tempWrite (get_lines st.prefs ⟨D', false⟩),
           .realWrite (get_lines st.prefs ⟨D', false⟩)]⟩ := by
  unfold Preferences.set_dynamic at h ⊢
  cases hnorm : normDyn st.prefs.entries [] D.entries with
  | error e => rw [hnorm] at h; simp at h
  | ok D' =>
    rw [hnorm] at h
    refine ⟨D', rfl, ?_⟩
    cases htmp : fs.tempOk
    · simp [htmp] at h
    · cases hreal : fs.realOk
      · simp [htmp, hreal] at h
      · rfl

theorem set_dynamic_err_frame (fs : FS) (st : St) (D : PDict DynV)
    (h : (Preferences.set_dynamic fs st D).err.isSome = true) :
    (Preferences.set_dynamic fs st D).st.prefs = st.prefs ∧
    (Preferences.set_dynamic fs st D).st.dyn = st.dyn := by
  unfold Preferences.set_dynamic at h ⊢
  cases hnorm : normDyn st.prefs.entries [] D.entries with
  | error e => exact ⟨rfl, rfl⟩
  | ok D' =>
    rw [hnorm] at h
    cases htmp : fs.tempOk
    · exact ⟨rfl, rfl⟩
    · cases hreal : fs.realOk
      · exact ⟨rfl, rfl⟩
      · simp [htmp, hreal] at h

theorem mergeUpd_noop {α : Type} (eqf : α → α → Bool) :
    ∀ (arg cur : List (PKey × α)),
      (∀ kv ∈ arg, ((dlookup cur kv.1).any fun w => eqf w kv.2) = true) →
      mergeUpd eqf cur arg = (false, cur) := by
  intro arg
  induction arg with
  | nil => intro cur _; rfl
  | cons kv rest ih =>
    intro cur h
    have hkv := h kv (List.mem_cons_self _ _)
    cases hdl : dlookup cur kv.1 with
    | none => rw [hdl] at hkv; simp [Option.any] at hkv
    | some w =>
      rw [hdl] at hkv
      simp only [Option.any_some] at hkv
      have hrec := ih cur (fun x hx => h x (List.mem_cons_of_mem _ hx))
      unfold mergeUpd at hrec ⊢
      rw [List.foldl_cons]
      have hstep : mergeStep eqf (false, cur) kv = (false, cur) := by
        simp [mergeStep, hdl, hkv]
      rw [hstep]
      exact hrec

set_option maxRecDepth 2000 in
theorem pyFormat_reraise (s : String) :
    pyFormat reraiseFmt [s] =
      .error "not all arguments converted during string formatting" := rfl

set_option maxRecDepth 8000 in
/-- C2 counterexample: the dynamic-subset invariant is not preserved by all
public operations.  Starting from a fresh store, `set_preferences` with a
dynamic argument installs the dynamic key `a`; a second `set_preferences`
call with `dynamic = None` then replaces the static mapping wholesale while
keeping the dynamic mapping, leaving dynamic key `a` with no static
entry. -/
theorem C2_invariant_broken_by_set_preferences :
    ((Preferences.construct ⟨true, true⟩).err = none) ∧
    ((Preferences.set_preferences ⟨true, true⟩ (Preferences.construct ⟨true, true⟩).st
        ⟨[(.kstr "a", .pint 1)], false⟩
        (some ⟨[(.kstr "a", .vlist ["uuid"])], false⟩)).err = none) ∧
    ((Preferences.set_preferences ⟨true, true⟩
        (Preferences.set_preferences ⟨true, true⟩ (Preferences.construct ⟨true, true⟩).st
          ⟨[(.kstr "a", .pint 1)], false⟩
          (some ⟨[(.kstr "a", .vlist ["uuid"])], false⟩)).st
        ⟨[(.kstr "b", .pint 2)], false⟩ none).err = none) ∧
    (dlookup (Preferences.set_preferences ⟨true, true⟩
        (Preferences.set_preferences ⟨true, true⟩ (Preferences.construct ⟨true, true⟩).st
          ⟨[(.kstr "a", .pint 1)], false⟩
          (some ⟨[(.kstr "a", .vlist ["uuid"])], false⟩)).st
        ⟨[(.kstr "b", .pint 2)], false⟩ none).st.dyn.entries (.kstr "a") = some ["uuid"]) ∧
    (dlookup (Preferences.set_preferences ⟨true, true⟩
        (Preferences.set_preferences ⟨true, true⟩ (Preferences.construct ⟨true, true⟩).st
          ⟨[(.kstr "a", .pint 1)], false⟩
          (some ⟨[(.kstr "a", .vlist ["uuid"])], false⟩)).st
        ⟨[(.kstr "b", .pint 2)], false⟩ none).st.prefs.entries (.kstr "a") = none) := by
  refine ⟨rfl, rfl, rfl, rfl, rfl⟩

/-- C2 (amended): the dynamic-subset invariant does hold after every
successful `set_dynamic` call and after every successful `set_preferences`
call that supplies a dynamic argument: every key of the resulting dynamic
mapping has an entry in the resulting static mapping. -/
theorem C2_dynamic_keys_subset_of_prefs (fs : FS) (st : St) (P : PDict PVal) (D : PDict DynV) :
    ((Preferences.set_dynamic fs st D).err = none →
      ∀ k ∈ dkeys (Preferences.set_dynamic fs st D).st.dyn.entries,
        (dlookup (Preferences.set_dynamic fs st D).st.prefs.entries k).isSome = true) ∧
    ((Preferences.set_preferences fs st P (some D)).err = none →
      ∀ k ∈ dkeys (Preferences.set_preferences fs st P (some D)).st.dyn.entries,
        (dlookup (Preferences.set_preferences fs st P (some D)).st.prefs.entries k).isSome
          = true) := by
  constructor
  · intro h k hk
    obtain ⟨D', hnorm, hshape⟩ := set_dynamic_ok_shape fs st D h
    rw [hshape] at hk ⊢
    simp only at hk ⊢
    rcases normDyn_keys st.prefs.entries D.entries [] D' hnorm k hk with habs | hs
    · simp [dkeys] at habs
    · exact hs
  · intro h k hk
    cases hinner : (Preferences.set_dynamic fs { st with prefs := P } D).err with
    | some e =>
      simp only [Preferences.set_preferences, hinner, pyFormat_reraise] at h
      exact absurd h (by simp)
    | none =>
      obtain ⟨D', hnorm, hshape⟩ := set_dynamic_ok_shape fs { st with prefs := P } D hinner
      simp only [Preferences.set_preferences, hinner, hshape] at hk ⊢
      rcases normDyn_keys P.entries D.entries [] D' hnorm k hk with habs | hs
      · simp [dkeys] at habs
      · exact hs

set_option maxRecDepth 8000 in
theorem C2_dynamic_keys_subset_of_prefs_witness :
    (dlookup (Preferences.set_dynamic ⟨true, true⟩
        ⟨⟨[(.kstr "a", .pint 1)], false⟩, ⟨[], false⟩, none⟩
        ⟨[(.kstr "a", .vlist ["uuid"])], false⟩).st.prefs.entries (.kstr "a")).isSome = true :=
  (C2_dynamic_keys_subset_of_prefs ⟨true, true⟩
      ⟨⟨[(.kstr "a", .pint 1)], false⟩, ⟨[], false⟩, none⟩
      ⟨[(.kstr "b", .pint 2)], false⟩
      ⟨[(.kstr "a", .vlist ["uuid"])], false⟩).1 (by decide) (.kstr "a") (by decide)

/-- C3 counterexample: `default` is not always returned unchanged for an
absent key — it can itself be evaluated.  In a store state where the key is
absent from the static mapping but still has a non-empty dynamic spec (such
a state is reachable, see the C2 counterexample), `get` falls back to
`default` as the expression to evaluate and returns the evaluation result,
not `default`. -/
theorem C3_default_gets_evaluated :
    (Preferences.get
        ⟨fun _ => true, fun e _ => if e = "1+1" then .ok (.pint 2) else .error "x"⟩
        ⟨⟨[], false⟩, ⟨[(.kstr "a", ["mod"])], false⟩, none⟩
        (.kstr "a") (.pstr "1+1") = .ok (.pint 2)) ∧
    ((Except.ok (PVal.pint 2) : Except PErr PVal) ≠ .ok (.pstr "1+1")) :=
  ⟨rfl, by decide⟩

/-- C3 (amended): in every store state satisfying the dynamic-subset
invariant, `get key default` returns `default` unchanged (never evaluated)
when the key is absent, the stored static value when the key has no
dynamic spec, and the evaluation of the stored expression string with the
declared modules when the key has a non-empty dynamic spec whose modules
all import. -/
theorem C3_get_characterization (ctx : EvalCtx) (st : St) (key : PKey) (default : PVal) :
    ((∀ k ∈ dkeys st.dyn.entries, (dlookup st.prefs.entries k).isSome = true) →
      dlookup st.prefs.entries key = none →
      Preferences.get ctx st key default = .ok default) ∧
    (∀ v, dlookup st.prefs.entries key = some v →
      (dlookup st.dyn.entries key).getD [] = [] →
      Preferences.get ctx st key default = .ok v) ∧
    (∀ e mods v, dlookup st.prefs.entries key = some (.pstr e) →
      dlookup st.dyn.entries key = some mods → mods ≠ [] →
      (∀ m ∈ mods, ctx.importOk m = true) →
      ctx.evalFn e mods = .ok v →
      Preferences.get ctx st key default = .ok v) := by
  refine ⟨?_, ?_, ?_⟩
  · intro hinv hnone
    have hdyn : dlookup st.dyn.entries key = none := by
      cases hd : dlookup st.dyn.entries key with
      | none => rfl
      | some mods =>
        have hmem := hinv key (dlookup_mem_keys _ _ _ hd)
        rw [hnone] at hmem
        simp at hmem
    simp [Preferences.get, hnone, hdyn]
  · intro v hv hdyn0
    simp [Preferences.get, hv, hdyn0]
  · intro e mods v he hm hne himp heval
    have hfind : mods.find? (fun m => !ctx.importOk m) = none :=
      List.find?_eq_none.mpr (fun x hx => by simp [himp x hx])
    have hlen : ¬ mods.length = 0 := by simpa using hne
    simp [Preferences.get, he, hm, hlen, hfind, heval]

theorem C3_get_characterization_witness :
    Preferences.get
        ⟨fun _ => true, fun _ _ => .error "x"⟩
        ⟨⟨[(.kstr "a", .pint 1)], false⟩, ⟨[(.kstr "a", ["uuid"])], false⟩, none⟩
        (.kstr "b") (.pstr "dflt") = .ok (.pstr "dflt") :=
  (C3_get_characterization
      ⟨fun _ => true, fun _ _ => .error "x"⟩
      ⟨⟨[(.kstr "a", .pint 1)], false⟩, ⟨[(.kstr "a", ["uuid"])], false⟩, none⟩
      (.kstr "b") (.pstr "dflt")).1 (by decide) (by decide)

/-- C4: rollback atomicity of `set_preferences` with a dynamic argument.
Whenever the inner `set_dynamic` step fails, the call raises an error (the
re-raise at line 556 itself raises, since its format string has no
placeholder, but an error is raised either way), the in-memory static
mapping is restored to its exact pre-call value and the in-memory dynamic
mapping is unchanged. -/
theorem C4_set_preferences_rollback (fs : FS) (st : St) (P : PDict PVal) (D : PDict DynV)
    (h : (Preferences.set_dynamic fs { st with prefs := P } D).err.isSome = true) :
    ((Preferences.set_preferences fs st P (some D)).err.isSome = true) ∧
    (Preferences.set_preferences fs st P (some D)).st.prefs = st.prefs ∧
    (Preferences.set_preferences fs st P (some D)).st.dyn = st.dyn := by
  obtain ⟨hp, hd⟩ := set_dynamic_err_frame fs { st with prefs := P } D h
  cases he : (Preferences.set_dynamic fs { st with prefs := P } D).err with
  | none => rw [he] at h; simp at h
  | some e =>
    simp only [Preferences.set_preferences, he, pyFormat_reraise]
    exact ⟨by simp, by simp, hd⟩

set_option maxRecDepth 8000 in
theorem C4_set_preferences_rollback_witness :
    ((Preferences.set_preferences ⟨false, true⟩
        ⟨⟨[(.kstr "old", .pint 0)], false⟩, ⟨[], false⟩, none⟩
        ⟨[(.kstr "a", .pint 1)], false⟩
        (some ⟨[(.kstr "a", .vnone)], false⟩)).err.isSome = true) ∧
    (Preferences.set_preferences ⟨false, true⟩
        ⟨⟨[(.kstr "old", .pint 0)], false⟩, ⟨[], false⟩, none⟩
        ⟨[(.kstr "a", .pint 1)], false⟩
        (some ⟨[(.kstr "a", .vnone)], false⟩)).st.prefs = ⟨[(.kstr "old", .pint 0)], false⟩ ∧
    (Preferences.set_preferences ⟨false, true⟩
        ⟨⟨[(.kstr "old", .pint 0)], false⟩, ⟨[], false⟩, none⟩
        ⟨[(.kstr "a", .pint 1)], false⟩
        (some ⟨[(.kstr "a", .vnone)], false⟩)).st.dyn = ⟨[], false⟩ :=
  C4_set_preferences_rollback ⟨false, true⟩
    ⟨⟨[(.kstr "old", .pint 0)], false⟩, ⟨[], false⟩, none⟩
    ⟨[(.kstr "a", .pint 1)], false⟩
    ⟨[(.kstr "a", .vnone)], false⟩ (by decide)

/-- C5: two-phase write pre-check.  When the disposable temporary location
is unwritable, `set_preferences` (with `dynamic = None`, the path the cited
lines take) fails with a persist-style error leaving the state — in-memory
mappings and real backing file — exactly as before the call, with no
completed write; `set_dynamic` does the same once its argument has passed
normalization. -/
theorem C5_temp_precheck (fs : FS) (st : St) (P : PDict PVal) (D : PDict DynV)
    (htemp : fs.tempOk = false) :
    (Preferences.set_preferences fs st P none =
      ⟨some (.persistTemp "unable to write preferences temporary file."), st, []⟩) ∧
    (∀ D', normDyn st.prefs.entries [] D.entries = .ok D' →
      Preferences.set_dynamic fs st D =
        ⟨some (.persistTemp
            "Unable to dump temporary preferences file. Preferences are unchanged."),
          st, []⟩) := by
  constructor
  · simp [Preferences.set_preferences, htemp]
  · intro D' hD
    simp [Preferences.set_dynamic, hD, htemp]

theorem C5_temp_precheck_witness :
    (Preferences.set_preferences ⟨false, true⟩
        ⟨⟨[(.kstr "a", .pint 1)], false⟩, ⟨[], false⟩, some "old"⟩
        ⟨[(.kstr "b", .pint 2)], false⟩ none =
      ⟨some (.persistTemp "unable to write preferences temporary file."),
        ⟨⟨[(.kstr "a", .pint 1)], false⟩, ⟨[], false⟩, some "old"⟩, []⟩) ∧
    (Preferences.set_dynamic ⟨false, true⟩
        ⟨⟨[(.kstr "a", .pint 1)], false⟩, ⟨[], false⟩, some "old"⟩
        ⟨[(.kstr "a", .vlist ["uuid"])], false⟩ =
      ⟨some (.persistTemp
          "Unable to dump temporary preferences file. Preferences are unchanged."),
        ⟨⟨[(.kstr "a", .pint 1)], false⟩, ⟨[], false⟩, some "old"⟩, []⟩) :=
  ⟨(C5_temp_precheck ⟨false, true⟩
      ⟨⟨[(.kstr "a", .pint 1)], false⟩, ⟨[], false⟩, some "old"⟩
      ⟨[(.kstr "b", .pint 2)], false⟩
      ⟨[(.kstr "a", .vlist ["uuid"])], false⟩ rfl).1,
   (C5_temp_precheck ⟨false, true⟩
      ⟨⟨[(.kstr "a", .pint 1)], false⟩, ⟨[], false⟩, some "old"⟩
      ⟨[(.kstr "b", .pint 2)], false⟩
      ⟨[(.kstr "a", .vlist ["uuid"])], false⟩ rfl).2
     [(.kstr "a", ["uuid"])] (by decide)⟩

/-- C6: idempotent update is a no-op on the backing store.  If every key
supplied to `update_preferences` — in the static argument and in the
dynamic argument — already exists in the corresponding current mapping with
a value equal under Python `==`, the call raises nothing, performs no write
at all and leaves the state unchanged. -/
theorem C6_idempotent_update_noop (fs : FS) (st : St)
    (preferences : Option (PDict PVal)) (dynamic : Option (PDict DynV))
    (hsome : preferences.isSome = true ∨ dynamic.isSome = true)
    (hp : ∀ Pd, preferences = some Pd → ∀ kv ∈ Pd.entries,
      ((dlookup st.prefs.entries kv.1).any fun w => pyEq w kv.2) = true)
    (hd : ∀ Dd, dynamic = some Dd → ∀ kv ∈ Dd.entries,
      ((dlookup (embedDynEntries st.dyn.entries) kv.1).any fun w => dynVEq w kv.2) = true) :
    Preferences.update_preferences fs st preferences dynamic = ⟨none, st, []⟩ := by
  cases preferences with
  | none =>
    cases dynamic with
    | none => simp at hsome
    | some Dd =>
      have hmd := mergeUpd_noop dynVEq Dd.entries (embedDynEntries st.dyn.entries) (hd Dd rfl)
      simp [Preferences.update_preferences, hmd]
  | some Pd =>
    have hmp := mergeUpd_noop pyEq Pd.entries st.prefs.entries (hp Pd rfl)
    cases dynamic with
    | none => simp [Preferences.update_preferences, hmp]
    | some Dd =>
      have hmd := mergeUpd_noop dynVEq Dd.entries (embedDynEntries st.dyn.entries) (hd Dd rfl)
      simp [Preferences.update_preferences, hmp, hmd]

theorem C6_idempotent_update_noop_witness :
    Preferences.update_preferences ⟨true, true⟩
        ⟨⟨[(.kstr "a", .pint 1), (.kstr "b", .pbool true)], false⟩,
         ⟨[(.kstr "a", ["uuid"])], false⟩, some "doc"⟩
        (some ⟨[(.kstr "b", .pint 1), (.kstr "a", .pint 1)], false⟩)
        (some ⟨[(.kstr "a", .vtuple ["uuid"])], false⟩) =
      ⟨none,
        ⟨⟨[(.kstr "a", .pint 1), (.kstr "b", .pbool true)], false⟩,
         ⟨[(.kstr "a", ["uuid"])], false⟩, some "doc"⟩, []⟩ :=
  C6_idempotent_update_noop ⟨true, true⟩
    ⟨⟨[(.kstr "a", .pint 1), (.kstr "b", .pbool true)], false⟩,
     ⟨[(.kstr "a", ["uuid"])], false⟩, some "doc"⟩
    (some ⟨[(.kstr "b", .pint 1), (.kstr "a", .pint 1)], false⟩)
    (some ⟨[(.kstr "a", .vtuple ["uuid"])], false⟩)
    (Or.inl rfl)
    (fun Pd hPd => by cases hPd; decide)
    (fun Dd hDd => by cases hDd; decide)

set_option maxRecDepth 4000 in
/-- C7 counterexample: a persisted document in which the `dynamic`
collection is entirely absent is not rejected — the loader's bare `except`
around the `module.dynamic` read substitutes an empty mapping and the load
succeeds. -/
theorem C7_missing_dynamic_tolerated :
    loadDoc "__pypref_version__ = '4.0.0' \npreferences = {}\n" =
      .ok (⟨[], false⟩, ⟨[], false⟩) := by decide

/-- C7 (amended): the loader's validation fails exactly when the version
marker is missing, the `preferences` collection is absent or not a mapping,
or the `dynamic` collection is present but not a mapping; an absent
`dynamic` collection is tolerated and defaults to an empty plain
mapping. -/
theorem C7_loader_checks (m : ExecedModule) :
    ((∃ e, load_check m = .error (.format e)) ↔
      (m.hasVersion = false ∨ m.preferences = .absent ∨ m.preferences = .nonMapping ∨
        m.dynamic = .nonMapping)) ∧
    (m.hasVersion = true → m.dynamic = .absent → ∀ p, m.preferences = .mapping p →
      load_check m = .ok (p, ⟨[], false⟩)) := by
  obtain ⟨hv, hp, hd⟩ := m
  constructor
  · cases hv <;> cases hp <;> cases hd <;> simp [load_check]
  · intro h1 h2 p h3
    cases h2
    cases h3
    cases h1
    simp [load_check]

theorem C7_loader_checks_witness :
    load_check ⟨true, .mapping ⟨[(.kstr "a", .pint 1)], false⟩, .absent⟩ =
      .ok (⟨[(.kstr "a", .pint 1)], false⟩, ⟨[], false⟩) :=
  (C7_loader_checks ⟨true, .mapping ⟨[(.kstr "a", .pint 1)], false⟩, .absent⟩).2
    rfl rfl ⟨[(.kstr "a", .pint 1)], false⟩ rfl

/-- C8: evaluator failure reporting is broken in both branches of `get`.
When a declared module of a non-empty dynamic spec fails to import, the
raise at line 413 applies `%` to a format string with two placeholders and
three arguments, so the call fails with the `TypeError` `"not all arguments
converted during string formatting"` — a message that names neither the
offending module nor anything else.  When all imports succeed but the
evaluation raises, the message of the raise at line 417 names the key but
not the underlying cause. -/
theorem C8_evaluator_error_messages :
    (Preferences.get ⟨fun _ => false, fun _ _ => .error "x"⟩
        ⟨⟨[(.kstr "a", .pstr "1+1")], false⟩, ⟨[(.kstr "a", ["numpy"])], false⟩, none⟩
        (.kstr "a") (.pstr "d") =
      .error (.typeError "not all arguments converted during string formatting")) ∧
    (hasSubstr "numpy".data "not all arguments converted during string formatting".data
      = false) ∧
    (Preferences.get ⟨fun _ => true, fun _ _ => .error "division by zero"⟩
        ⟨⟨[(.kstr "a", .pstr "1/0")], false⟩, ⟨[(.kstr "a", ["math"])], false⟩, none⟩
        (.kstr "a") (.pstr "d") =
      .error (.appError "Unable to evaluate preference 'a'")) ∧
    (hasSubstr "division by zero".data "Unable to evaluate preference 'a'".data = false) :=
  ⟨rfl, by decide, rfl, by decide⟩

set_option maxRecDepth 8000 in
/-- C9: the order-preservation marker of the dynamic block does not follow
the dynamic mapping.  Line 316 tests `isinstance(preferences, OrderedDict)`
— copied from the static block at line 293 — so an order-carrying dynamic
mapping paired with a plain static mapping is emitted as `dynamic = {}`
(no marker), while a plain dynamic mapping paired with an order-carrying
static mapping gets the `OrderedDict` marker it should not have. -/
theorem C9_dynamic_marker_follows_prefs :
    (hasSubstr "dynamic = OrderedDict()".data
      (get_lines ⟨[], false⟩ ⟨[(.kstr "a", ["uuid"])], true⟩).data = false) ∧
    (hasSubstr "dynamic = {}".data
      (get_lines ⟨[], false⟩ ⟨[(.kstr "a", ["uuid"])], true⟩).data = true) ∧
    (hasSubstr "dynamic = OrderedDict()".data
      (get_lines ⟨[], true⟩ ⟨[], false⟩).data = true) := by
  refine ⟨by decide, by decide, by decide⟩

/-- C10: every successful `set_preferences` (with or without a dynamic
argument) and every successful `set_dynamic` writes the real backing file
— no change-detection happens at this level, so the write occurs even when
the supplied mappings equal the current ones value-for-value. -/
theorem C10_mutators_always_write (fs : FS) (st : St) (P : PDict PVal) (D : PDict DynV) :
    ((Preferences.set_preferences fs st P none).err = none →
      (Preferences.set_preferences fs st P none).events.any WEvent.isReal = true) ∧
    ((Preferences.set_preferences fs st P (some D)).err = none →
      (Preferences.set_preferences fs st P (some D)).events.any WEvent.isReal = true) ∧
    ((Preferences.set_dynamic fs st D).err = none →
      (Preferences.set_dynamic fs st D).events.any WEvent.isReal = true) := by
  refine ⟨?_, ?_, ?_⟩
  · intro h
    unfold Preferences.set_preferences at h ⊢
    cases htmp : fs.tempOk
    · simp [htmp] at h
    · cases hreal : fs.realOk
      · simp [htmp, hreal] at h
      · simp [htmp, hreal, WEvent.isReal]
  · intro h
    cases hinner : (Preferences.set_dynamic fs { st with prefs := P } D).err with
    | some e =>
      simp only [Preferences.set_preferences, hinner, pyFormat_reraise] at h
      exact absurd h (by simp)
    | none =>
      obtain ⟨D', hnorm, hshape⟩ := set_dynamic_ok_shape fs { st with prefs := P } D hinner
      simp [Preferences.set_preferences, hinner, hshape, WEvent.isReal]
  · intro h
    obtain ⟨D', hnorm, hshape⟩ := set_dynamic_ok_shape fs st D h
    simp [hshape, WEvent.isReal]

set_option maxRecDepth 8000 in
theorem C10_mutators_always_write_witness :
    ((Preferences.set_preferences ⟨true, true⟩
        ⟨⟨[(.kstr "a", .pint 1)], false⟩, ⟨[(.kstr "a", ["uuid"])], false⟩, some "doc"⟩
        ⟨[(.kstr "a", .pint 1)], false⟩ none).events.any WEvent.isReal = true) ∧
    ((Preferences.set_dynamic ⟨true, true⟩
        ⟨⟨[(.kstr "a", .pint 1)], false⟩, ⟨[(.kstr "a", ["uuid"])], false⟩, some "doc"⟩
        ⟨[(.kstr "a", .vtuple ["uuid"])], false⟩).events.any WEvent.isReal = true) :=
  ⟨(C10_mutators_always_write ⟨true, true⟩
      ⟨⟨[(.kstr "a", .pint 1)], false⟩, ⟨[(.kstr "a", ["uuid"])], false⟩, some "doc"⟩
      ⟨[(.kstr "a", .pint 1)], false⟩
      ⟨[(.kstr "a", .vtuple ["uuid"])], false⟩).1 (by decide),
   (C10_mutators_always_write ⟨true, true⟩
      ⟨⟨[(.kstr "a", .pint 1)], false⟩, ⟨[(.kstr "a", ["uuid"])], false⟩, some "doc"⟩
      ⟨[(.kstr "a", .pint 1)], false⟩
      ⟨[(.kstr "a", .vtuple ["uuid"])], false⟩).2.2 (by decide)⟩
